import Mathlib

/-!
# go-t0ken: nonce handling and getter-command registries

A shallow embedding of three source files of the command-line client:

* `commands/nonce/nonce.go`     (package `nonce`: `SetNonce`, `Get`, `Flag`, `NextCommand`)
* `commands/broker/getters.go`  (package `broker`: `GetterCommands`, `init`)
* `commands/token/getters.go`   (package `token`: `GetterCommands`, `init`)

A Go `error` is an `Option` (`none` is `nil`), a `uint64` is a natural number (no arithmetic
is performed on nonces in these files, so no wrap-around can occur).  A `*cobra.Command` is a
reference into a store of command objects: a registry is a list of references, the flag loop
changes the objects behind them, and one object may stand at several positions.
Collaborators that live outside these three files (the chain connection `cli.Conn`, the
contract artifacts, the capability modules `ownable` and `lockable`, the keystore) are
parameters of the definitions, so every statement below quantifies over all their behaviours.
-/

namespace cli

/-- A `common.Address` (20 bytes), identified with its numeric value. -/
abbrev Address := Nat

/-- A Go `error` value that is not `nil`. -/
abbrev Error := String

/-- The methods of `cli.Conn` the `nonce` package invokes; used for the invocation log. -/
inductive ConnCall
  | PendingNonceAt (account : Address)
  | SetNonce (nonce : Nat)
  | SetNextNonce
  deriving DecidableEq, Repr

/-- The chain connection `cli.Conn`, over an arbitrary connection state `σ`.
`From` is `Conn.Opts.From`; `PendingNonceAt` answers `(n, err)` and may change the state of
the connection (the chain moves on between queries); `SetNonce` forces the transactor's
nonce; `SetNextNonce` re-synchronises it and may fail. -/
structure Conn (σ : Type) where
  From : σ → Address
  PendingNonceAt : σ → Address → σ × (Nat × Option Error)
  SetNonce : σ → Nat → σ
  SetNextNonce : σ → σ × Option Error

end cli

namespace nonce

/-- The state the package `nonce` works on: its package-level `var nonce uint64` (bound to
the 'nonce' flag by `Flag`), the connection `cli.Conn`, and the log of the methods invoked on
the connection so far (a ghost field, appended to at every call site). -/
structure State (σ : Type) where
  nonce : Nat
  Conn : σ
  calls : List cli.ConnCall

/-- The function `func SetNonce(nonce uint64) error`.  The parameter shadows the
package-level variable: the value goes to the connection, the package-level `nonce` is not
assigned. -/
def SetNonce {σ : Type} (c : cli.Conn σ) (nonce : Nat) (st : State σ) :
    State σ × Option cli.Error :=
  if nonce = 0 then
    let r := c.SetNextNonce st.Conn
    ({ st with Conn := r.1, calls := st.calls ++ [cli.ConnCall.SetNextNonce] }, r.2)
  else
    ({ st with Conn := c.SetNonce st.Conn nonce,
               calls := st.calls ++ [cli.ConnCall.SetNonce nonce] }, none)

/-- The function `func Get() (uint64, error)`: the flag value when it is set, otherwise the
answer of a query for the pending nonce of `cli.Conn.Opts.From`. -/
def Get {σ : Type} (c : cli.Conn σ) (st : State σ) : State σ × (Nat × Option cli.Error) :=
  if st.nonce > 0 then
    (st, (st.nonce, none))
  else
    let r := c.PendingNonceAt st.Conn (c.From st.Conn)
    ({ st with Conn := r.1,
               calls := st.calls ++ [cli.ConnCall.PendingNonceAt (c.From st.Conn)] }, r.2)

/-- The reference definition of `Get`, written after the specification's words for
`NextNonce()`: the override when it is non-zero, otherwise the pair the connection answers to
a query for the active account (and that query is the only contact with the connection). -/
def Get_reference {σ : Type} (c : cli.Conn σ) (st : State σ) :
    State σ × (Nat × Option cli.Error) :=
  match st.nonce with
  | 0 =>
    let account := c.From st.Conn
    let answer := c.PendingNonceAt st.Conn account
    (State.mk 0 answer.1 (st.calls ++ [cli.ConnCall.PendingNonceAt account]), answer.2)
  | override + 1 => (st, (override + 1, none))

/-- A caller's use of the package: a call of `SetNonce(n)` or a call of `Get()`. -/
inductive Call
  | SetNonce (n : Nat)
  | Get
  deriving DecidableEq, Repr

/-- Performs a sequence of calls in order and collects what the `Get` calls returned. -/
def runCalls {σ : Type} (c : cli.Conn σ) :
    List Call → State σ → State σ × List (Nat × Option cli.Error)
  | [], st => (st, [])
  | Call.SetNonce n :: rest, st => runCalls c rest (SetNonce c n st).1
  | Call.Get :: rest, st =>
    let r := Get c st
    let tail := runCalls c rest r.1
    (tail.1, r.2 :: tail.2)

/-- A stub connection whose state counts the `PendingNonceAt` queries answered so far and
remembers the nonce forced on the transactor: query number `k` (from 0) is answered
`reports k`, without error; the active account is `0xdead`. -/
def stubConn (reports : Nat → Nat) : cli.Conn (Nat × Option Nat) where
  From := fun _ => 0xdead
  PendingNonceAt := fun s _ => ((s.1 + 1, s.2), (reports s.1, none))
  SetNonce := fun s n => (s.1, some n)
  SetNextNonce := fun s => ((s.1, none), none)

/-- A stub connection that cannot be reached: every query and every re-synchronisation
fails with the same error. -/
def downConn : cli.Conn Unit where
  From := fun _ => 0xdead
  PendingNonceAt := fun s _ => (s, (0, some "connection refused"))
  SetNonce := fun s _ => s
  SetNextNonce := fun s => (s, some "connection refused")

/-- The state of a fresh process over the stub: the flag at the given value, nothing
invoked on the connection yet. -/
def stubStart (flag : Nat) : State (Nat × Option Nat) := State.mk flag (0, none) []

end nonce

namespace cli

/-- What `NextCommand` consults to turn its argument into an address: `common.IsHexAddress`
and `common.HexToAddress` of go-ethereum, and the keystore-alias resolver
`cli.AddressForKeystoreAlias`, of whose four results the caller keeps the address and the
error. -/
structure Resolver where
  IsHexAddress : String → Bool
  HexToAddress : String → Address
  AddressForKeystoreAlias : String → Address × Option Error

/-- Modelled from the spec: `cli.GetArgAddress` is not among the source files.  The spec
describes address resolution as a capability over "a local key-alias store versus literal hex
addresses": the argument at `index` resolves to the address it spells when it is a valid hex
address, and through the alias store otherwise; an absent argument is an error. -/
def GetArgAddress (r : Resolver) (index : Nat) (args : List String) : Address × Option Error :=
  match args[index]? with
  | none => (0, some "missing address argument")
  | some s => if r.IsHexAddress s then (r.HexToAddress s, none) else r.AddressForKeystoreAlias s

end cli

namespace nonce

/-- What one run of a command leaves behind: the state, the values printed with
`cmd.Println` in order, and the error that ended the command, if one did. -/
structure Outcome (σ : Type) where
  state : State σ
  printed : List Nat
  failed : Option cli.Error

/-- Modelled from the spec: `cli.CheckErr` is not among the source files.  The spec's exit
behaviour is that "any resolution, validation, or network error terminates the command with a
non-zero status and a printed error message": with an error the command ends in the state
reached so far, without an error it goes on with `next`. -/
def CheckErr {σ : Type} (st : State σ) (err : Option cli.Error)
    (next : Unit → Outcome σ) : Outcome σ :=
  match err with
  | some e => Outcome.mk st [] (some e)
  | none => next ()

/-- The `Run` body of `NextCommand` ("next <address>", `cobra.ExactArgs(1)`,
`PreRun: cli.Connect`).  `none` is the runtime panic of indexing `args` out of range. -/
def NextCommand_Run {σ : Type} (r : cli.Resolver) (c : cli.Conn σ) (args : List String)
    (st : State σ) : Option (Outcome σ) :=
  match args[0]? with
  | none => none
  | some arg0 =>
    let resolved :=
      if r.IsHexAddress arg0 then cli.GetArgAddress r 0 args
      else r.AddressForKeystoreAlias arg0
    some (CheckErr st resolved.2 fun _ =>
      let answer := c.PendingNonceAt st.Conn resolved.1
      let st1 : State σ :=
        { st with Conn := answer.1,
                  calls := st.calls ++ [cli.ConnCall.PendingNonceAt resolved.1] }
      CheckErr st1 answer.2.2 fun _ => Outcome.mk st1 [answer.2.1] none)

/-- A stub resolver: a string counts as a hex address when it starts with "0x" and then
spells its own length as the address; the one alias the keystore knows is "treasury", at
`0xdead`. -/
def stubResolver : cli.Resolver where
  IsHexAddress := fun s => s.toList.take 2 == ['0', 'x']
  HexToAddress := fun s => s.length
  AddressForKeystoreAlias := fun s =>
    if s = "treasury" then (0xdead, none) else (0, some "unknown keystore alias")

end nonce

namespace pflag

/-- The value type of a flag. -/
inductive Kind
  | string
  | uint64
  deriving DecidableEq, Repr

/-- A `pflag.Flag`: name, value type, default value (as text) and usage text. -/
structure Flag where
  Name : String
  Kind : Kind
  DefValue : String
  Usage : String
  deriving DecidableEq, Repr

/-- A `pflag.FlagSet`: the flags defined so far, in order of definition. -/
abbrev FlagSet := List Flag

/-- The flags of the set that carry the given name. -/
def FlagSet.named (fs : FlagSet) (name : String) : List Flag :=
  fs.filter fun f => f.Name = name

/-- The method `FlagSet.String(name, value, usage)`: defines a string flag with the given
default.  As in pflag's `AddFlag`, defining a name a second time panics
("flag redefined"); the panic is the `Except.error`. -/
def FlagSet.DefineString (fs : FlagSet) (name value usage : String) : Except String FlagSet :=
  if fs.named name = [] then Except.ok (fs ++ [Flag.mk name Kind.string value usage])
  else Except.error ("flag redefined: " ++ name)

/-- The method `FlagSet.Uint64Var(p, name, value, usage)`: defines a uint64 flag with the
given default; the binding to the variable `p` is kept by the caller. -/
def FlagSet.DefineUint64 (fs : FlagSet) (name : String) (value : Nat) (usage : String) :
    Except String FlagSet :=
  if fs.named name = [] then Except.ok (fs ++ [Flag.mk name Kind.uint64 (toString value) usage])
  else Except.error ("flag redefined: " ++ name)

end pflag

namespace cobra

/-- The positional-argument validators of cobra used in these files. -/
inductive Arity
  | NoArgs
  | ExactArgs (n : Nat)
  | MaximumNArgs (n : Nat)
  deriving DecidableEq, Repr

/-- Whether cobra's validator lets the argument list through: `NoArgs` refuses any argument,
`ExactArgs(n)` wants exactly `n`, `MaximumNArgs(n)` refuses more than `n`. -/
def Arity.accepts : Arity → List String → Bool
  | Arity.NoArgs, args => !(args.length > 0)
  | Arity.ExactArgs n, args => !(args.length != n)
  | Arity.MaximumNArgs n, args => !(args.length > n)

/-- The per-argument validators of package `cli` that are chained after an arity check:
`cli.AddressArgFunc(name, index)` and `cli.IntArgFunc(name, index)`.  Their code is not among
the source files; they are kept as written. -/
inductive ArgFunc
  | AddressArgFunc (name : String) (index : Nat)
  | IntArgFunc (name : String) (index : Nat)
  deriving DecidableEq, Repr

/-- The `Args` field of a command: a validator of cobra alone, or
`cli.ChainArgs(arity, argFuncs...)`. -/
inductive PositionalArgs
  | plain (arity : Arity)
  | ChainArgs (arity : Arity) (fns : List ArgFunc)
  deriving DecidableEq, Repr

/-- The arity check a command declares. -/
def PositionalArgs.arity : PositionalArgs → Arity
  | PositionalArgs.plain a => a
  | PositionalArgs.ChainArgs a _ => a

/-- The pre-execution hooks used in these files: the package-local `connectCaller` and
`cli.Connect`. -/
inductive Hook
  | connectCaller
  | Connect
  deriving DecidableEq, Repr

/-- A value handed to a contract call: `common.HexToAddress(s)` or
`new(big.Int).SetString(s, 10)`, kept with the text it is made from. -/
inductive Value
  | HexToAddress (s : String)
  | BigIntBase10 (s : String)
  deriving DecidableEq, Repr

/-- What an execution body does, step by step: print a text with `cmd.Println`, or call a
read method of the contract's call session over the chain connection and hand the result to
`cli.CheckGetter(cmd)` or `cli.CheckAddressGetter(cmd)`. -/
inductive Effect
  | Println (text : String)
  | CheckGetter (method : String) (params : List Value)
  | CheckAddressGetter (method : String) (params : List Value)
  deriving DecidableEq, Repr

/-- Whether the step goes to the chain connection. -/
def Effect.onChain : Effect → Bool
  | Effect.Println _ => false
  | Effect.CheckGetter _ _ => true
  | Effect.CheckAddressGetter _ _ => true

/-- A `cobra.Command` with the fields these files set, and its flag set `cmd.Flags()`.
`Run` maps the positional arguments to the steps performed; `none` is the runtime panic of
indexing `args` out of range. -/
structure Command where
  Use : String
  Short : String
  Example : String
  Args : PositionalArgs
  PreRun : Option Hook
  Run : List String → Option (List Effect)
  Flags : pflag.FlagSet

/-- The method `Command.Name()`: the text of `Use` before the first space. -/
def Command.Name (cmd : Command) : String :=
  String.mk (cmd.Use.toList.takeWhile fun ch => ch != ' ')

/-- The command with one more flag at the end of its flag set: the string flag 'address'
with the empty string as default and the given usage text. -/
def Command.withAddressFlag (usage : String) (cmd : Command) : Command :=
  { cmd with Flags := cmd.Flags ++ [pflag.Flag.mk "address" pflag.Kind.string "" usage] }

/-- The identity of a command object, a `*cobra.Command`.  `declared k` is the object made
by element `k` of the package's own literal `GetterCommands`; `handed k` is object number `k`
of the capability packages.  The two kinds never coincide: the capability packages are
imported by the package of the literal, are initialised before it and cannot refer to it, so
what they return is never an object of the literal. -/
inductive Ref
  | declared (k : Nat)
  | handed (k : Nat)
  deriving DecidableEq, Repr

/-- The command objects behind the references: those of the literal, in the order of the
literal, and those of the capability packages (`none` is a nil pointer). -/
structure Objects where
  declared : List Command
  handed : Nat → Option Command

/-- The object a reference points to; `none` when there is none to dereference. -/
def Objects.get (o : Objects) : Ref → Option Command
  | Ref.declared k => o.declared[k]?
  | Ref.handed k => o.handed k

/-- The store after the object behind the reference is replaced; every other object is as
before. -/
def Objects.set (o : Objects) (r : Ref) (cmd : Command) : Objects :=
  match r with
  | Ref.declared k => { o with declared := o.declared.set k cmd }
  | Ref.handed k => { o with handed := fun j => if j = k then some cmd else o.handed j }

/-- The state of a getters package: the slice `var GetterCommands []*cobra.Command` and the
objects its elements point to. -/
structure Registry where
  GetterCommands : List Ref
  objects : Objects

/-- The command at a position of the registry, read through the reference there. -/
def Registry.command (g : Registry) (i : Nat) : Option Command :=
  match g.GetterCommands[i]? with
  | none => none
  | some r => g.objects.get r

/-- The commands of the registry, position by position. -/
def Registry.commands (g : Registry) : List (Option Command) :=
  g.GetterCommands.map g.objects.get

/-- The names of the commands of the registry, position by position. -/
def Registry.names (g : Registry) : List (Option String) :=
  g.GetterCommands.map fun r => (g.objects.get r).map Command.Name

end cobra

namespace nonce

/-- The `Args` field of `NextCommand`: `cobra.ExactArgs(1)`. -/
def NextCommand_Args : cobra.PositionalArgs :=
  cobra.PositionalArgs.plain (cobra.Arity.ExactArgs 1)

/-- The function `func Flag(cmd *cobra.Command)`, as
`cmd.Flags().Uint64Var(&nonce, "nonce", 0, usage)`: the default 0 is stored through `&nonce`
into the package-level `nonce`, then the uint64 flag 'nonce' is defined on the command
(a panic when the command has a flag of that name already).  Parsing the flag later writes
the package-level `nonce` again. -/
def Flag {σ : Type} (cmd : cobra.Command) (st : State σ) :
    Except String (cobra.Command × State σ) :=
  let st : State σ := { st with nonce := 0 }
  match pflag.FlagSet.DefineUint64 cmd.Flags "nonce" 0
      "manually set the nonce for the transaction" with
  | Except.error e => Except.error e
  | Except.ok fs => Except.ok ({ cmd with Flags := fs }, st)

end nonce

/-- The usage text both `init` functions give the 'address' flag. -/
def addressUsage (contractKey : String) : String :=
  "address of the BrokerDealer registry contract (default \"[" ++ contractKey ++
    "] value from config\")"

/-- The loop `for i, cmd := range GetterCommands` of both `init` functions, from position
`i` on: positions below 2 are skipped, at every other position the object behind the
reference gets `cmd.Flags().String("address", "", usage)`.  The result is an error when the
loop panics: on a nil pointer, or when the object has a flag named 'address' already, be it
from before the loop or from an earlier position that holds the same object. -/
def addAddressFlags (usage : String) :
    Nat → List cobra.Ref → cobra.Objects → Except String cobra.Objects
  | _, [], o => Except.ok o
  | i, r :: rest, o =>
    if i < 2 then
      addAddressFlags usage (i + 1) rest o
    else
      match o.get r with
      | none => Except.error "invalid memory address or nil pointer dereference"
      | some cmd =>
        match pflag.FlagSet.DefineString cmd.Flags "address" "" usage with
        | Except.error e => Except.error e
        | Except.ok fs => addAddressFlags usage (i + 1) rest (o.set r { cmd with Flags := fs })

/-- What a package takes from outside its getters file: its configuration key
`contractKey`, the ABI and binary texts of its contract (`registry.StorageABI` and
`registry.StorageBin` for the broker, `erc20.T0kenABI` and `erc20.T0kenBin` for the token),
and the two capability modules `ownable.NewGetterCommands` and
`lockable.NewGetterCommands`.  A module returns a slice of pointers: the numbers of the
objects it hands out, whose contents are `handed` (`none` for a nil pointer); nothing keeps
a module from returning one object twice, or both modules from returning the same object. -/
structure Package where
  contractKey : String
  ABI : String
  Bin : String
  handed : Nat → Option cobra.Command
  ownable_NewGetterCommands : String → List Nat
  lockable_NewGetterCommands : String → List Nat

namespace broker

/-- The command "abi", element 0 of the literal `GetterCommands`. -/
def abi (p : Package) : cobra.Command where
  Use := "abi"
  Short := "Outputs the Storage ABI"
  Example := "t0ken investor abi"
  Args := cobra.PositionalArgs.plain cobra.Arity.NoArgs
  PreRun := none
  Run := fun _ => some [cobra.Effect.Println p.ABI]
  Flags := []

/-- The command "bin", element 1 of the literal `GetterCommands`. -/
def bin (p : Package) : cobra.Command where
  Use := "bin"
  Short := "Outputs the Storage Binary"
  Example := "t0ken investor bin"
  Args := cobra.PositionalArgs.plain cobra.Arity.NoArgs
  PreRun := none
  Run := fun _ => some [cobra.Effect.Println p.Bin]
  Flags := []

/-- The command "storage", element 2 of the literal `GetterCommands`. -/
def storage : cobra.Command where
  Use := "storage"
  Short := "Gets the Storage contract address"
  Example := "t0ken investor storage"
  Args := cobra.PositionalArgs.plain cobra.Arity.NoArgs
  PreRun := some cobra.Hook.connectCaller
  Run := fun _ => some [cobra.Effect.CheckAddressGetter "Store" []]
  Flags := []


/-- The literal value of `var GetterCommands`: three new command objects, and the slice of
the pointers to them. -/
def GetterCommands (p : Package) : cobra.Registry where
  GetterCommands := [cobra.Ref.declared 0, cobra.Ref.declared 1, cobra.Ref.declared 2]
  objects := cobra.Objects.mk [abi p, bin p, storage] p.handed

/-- The two `append` statements of `init`: the ownable getters, then the lockable ones. -/
def assemble (p : Package) (g : cobra.Registry) : cobra.Registry :=
  let g : cobra.Registry := { g with GetterCommands := g.GetterCommands ++
    (p.ownable_NewGetterCommands p.contractKey).map cobra.Ref.handed }
  let g : cobra.Registry := { g with GetterCommands := g.GetterCommands ++
    (p.lockable_NewGetterCommands p.contractKey).map cobra.Ref.handed }
  g

/-- The function `func init()`: the two appends, then the flag loop over the whole slice. -/
def init (p : Package) (g : cobra.Registry) : Except String cobra.Registry :=
  let g := assemble p g
  match addAddressFlags (addressUsage p.contractKey) 0 g.GetterCommands g.objects with
  | Except.error e => Except.error e
  | Except.ok o => Except.ok { g with objects := o }

end broker

namespace token

/-- The command "abi", element 0 of the literal `GetterCommands`. -/
def abi (p : Package) : cobra.Command where
  Use := "abi"
  Short := "Outputs the T0ken ABI"
  Example := "t0ken investor abi"
  Args := cobra.PositionalArgs.plain cobra.Arity.NoArgs
  PreRun := none
  Run := fun _ => some [cobra.Effect.Println p.ABI]
  Flags := []

/-- The command "bin", element 1 of the literal `GetterCommands`. -/
def bin (p : Package) : cobra.Command where
  Use := "bin"
  Short := "Outputs the T0ken Binary"
  Example := "t0ken investor bin"
  Args := cobra.PositionalArgs.plain cobra.Arity.NoArgs
  PreRun := none
  Run := fun _ => some [cobra.Effect.Println p.Bin]
  Flags := []

/-- The command "allowance", element 2 of the literal `GetterCommands`. -/
def allowance : cobra.Command where
  Use := "allowance <owner> <spender>"
  Short := "Gets the amount of tokens the <owner> has approved the <spender> to transfer"
  Example := "t0ken token allowance 0xf01ff29dcbee147e9ca151a281bfdf136f66a45b 0xa01a0a93716633058d69a28fbd472fd40e7c6b79"
  Args := cobra.PositionalArgs.ChainArgs (cobra.Arity.ExactArgs 2)
    [cobra.ArgFunc.AddressArgFunc "owner" 0, cobra.ArgFunc.AddressArgFunc "spender" 1]
  PreRun := some cobra.Hook.connectCaller
  Run := fun args => do
    let owner ← (args[0]?).map cobra.Value.HexToAddress
    let spender ← (args[1]?).map cobra.Value.HexToAddress
    pure [cobra.Effect.CheckGetter "Allowance" [owner, spender]]
  Flags := []

/-- The command "balanceOf", element 3 of the literal `GetterCommands`. -/
def balanceOf : cobra.Command where
  Use := "balanceOf <address>"
  Short := "Gets the balance of the given <address>"
  Example := "t0ken token balanceOf 0xf01ff29dcbee147e9ca151a281bfdf136f66a45b"
  Args := cobra.PositionalArgs.ChainArgs (cobra.Arity.MaximumNArgs 1)
    [cobra.ArgFunc.AddressArgFunc "address" 0]
  PreRun := some cobra.Hook.connectCaller
  Run := fun args => do
    let addr ← (args[0]?).map cobra.Value.HexToAddress
    pure [cobra.Effect.CheckGetter "BalanceOf" [addr]]
  Flags := []

/-- The command "cancellations", element 4 of the literal `GetterCommands`. -/
def cancellations : cobra.Command where
  Use := "cancellations <address>"
  Short := "Gets the replacement address of the given <address>, or a zero-address when it has not been cancelled"
  Example := "t0ken token cancellations 0xf01ff29dcbee147e9ca151a281bfdf136f66a45b"
  Args := cobra.PositionalArgs.ChainArgs (cobra.Arity.MaximumNArgs 1)
    [cobra.ArgFunc.AddressArgFunc "address" 0]
  PreRun := some cobra.Hook.connectCaller
  Run := fun args => do
    let addr ← (args[0]?).map cobra.Value.HexToAddress
    pure [cobra.Effect.CheckAddressGetter "Cancellations" [addr]]
  Flags := []

/-- The command "compliance", element 5 of the literal `GetterCommands`. -/
def compliance : cobra.Command where
  Use := "compliance"
  Short := "Gets the compliance contract address for the t0ken"
  Example := "t0ken token compliance"
  Args := cobra.PositionalArgs.plain cobra.Arity.NoArgs
  PreRun := some cobra.Hook.connectCaller
  Run := fun _ => some [cobra.Effect.CheckAddressGetter "Compliance" []]
  Flags := []

/-- The command "decimals", element 6 of the literal `GetterCommands`. -/
def decimals : cobra.Command where
  Use := "decimals"
  Short := "Gets the number of decimals the t0ken is set to"
  Example := "t0ken token decimals"
  Args := cobra.PositionalArgs.plain cobra.Arity.NoArgs
  PreRun := some cobra.Hook.connectCaller
  Run := fun _ => some [cobra.Effect.CheckGetter "Decimals" []]
  Flags := []

/-- The command "getSuperseded", element 7 of the literal `GetterCommands`. -/
def getSuperseded : cobra.Command where
  Use := "getSuperseded <address>"
  Short := "Gets the superseded address of the given <address>"
  Example := "t0ken token getSuperseded 0xf01ff29dcbee147e9ca151a281bfdf136f66a45b"
  Args := cobra.PositionalArgs.ChainArgs (cobra.Arity.MaximumNArgs 1)
    [cobra.ArgFunc.AddressArgFunc "address" 0]
  PreRun := some cobra.Hook.connectCaller
  Run := fun args => do
    let addr ← (args[0]?).map cobra.Value.HexToAddress
    pure [cobra.Effect.CheckAddressGetter "GetSuperseded" [addr]]
  Flags := []

/-- The command "holderAt", element 8 of the literal `GetterCommands`. -/
def holderAt : cobra.Command where
  Use := "holderAt <index>"
  Short := "Gets the holder address at the given <index>"
  Example := "t0ken token holderAt 5"
  Args := cobra.PositionalArgs.ChainArgs (cobra.Arity.MaximumNArgs 1)
    [cobra.ArgFunc.IntArgFunc "index" 0]
  PreRun := some cobra.Hook.connectCaller
  Run := fun args => do
    let index ← (args[0]?).map cobra.Value.BigIntBase10
    pure [cobra.Effect.CheckAddressGetter "HolderAt" [index]]
  Flags := []

/-- The command "isHolder", element 9 of the literal `GetterCommands`. -/
def isHolder : cobra.Command where
  Use := "isHolder <address>"
  Short := "Checks if the given <address> is a current holder"
  Example := "t0ken token isHolder 0xf01ff29dcbee147e9ca151a281bfdf136f66a45b"
  Args := cobra.PositionalArgs.ChainArgs (cobra.Arity.MaximumNArgs 1)
    [cobra.ArgFunc.AddressArgFunc "address" 0]
  PreRun := some cobra.Hook.connectCaller
  Run := fun args => do
    let addr ← (args[0]?).map cobra.Value.HexToAddress
    pure [cobra.Effect.CheckGetter "IsHolder" [addr]]
  Flags := []

/-- The command "isSuperseded", element 10 of the literal `GetterCommands`. -/
def isSuperseded : cobra.Command where
  Use := "isSuperseded <address>"
  Short := "Checks if the <address> is superseded by another"
  Example := "t0ken token isSuperseded 0xf01ff29dcbee147e9ca151a281bfdf136f66a45b"
  Args := cobra.PositionalArgs.ChainArgs (cobra.Arity.MaximumNArgs 1)
    [cobra.ArgFunc.AddressArgFunc "address" 0]
  PreRun := some cobra.Hook.connectCaller
  Run := fun args => do
    let addr ← (args[0]?).map cobra.Value.HexToAddress
    pure [cobra.Effect.CheckGetter "IsSuperseded" [addr]]
  Flags := []

/-- The command "issuer", element 11 of the literal `GetterCommands`. -/
def issuer : cobra.Command where
  Use := "issuer"
  Short := "Gets the issuer of the t0ken"
  Example := "t0ken token issuer"
  Args := cobra.PositionalArgs.plain cobra.Arity.NoArgs
  PreRun := some cobra.Hook.connectCaller
  Run := fun _ => some [cobra.Effect.CheckAddressGetter "Issuer" []]
  Flags := []

/-- The command "issuingFinished", element 12 of the literal `GetterCommands`. -/
def issuingFinished : cobra.Command where
  Use := "issuingFinished"
  Short := "Returns if issuing has been finished"
  Example := "t0ken token issuingFinished"
  Args := cobra.PositionalArgs.plain cobra.Arity.NoArgs
  PreRun := some cobra.Hook.connectCaller
  Run := fun _ => some [cobra.Effect.CheckGetter "IssuingFinished" []]
  Flags := []

/-- The command "name", element 13 of the literal `GetterCommands`. -/
def name : cobra.Command where
  Use := "name"
  Short := "Gets the name of the t0ken"
  Example := "t0ken token name"
  Args := cobra.PositionalArgs.plain cobra.Arity.NoArgs
  PreRun := some cobra.Hook.connectCaller
  Run := fun _ => some [cobra.Effect.CheckGetter "Name" []]
  Flags := []

/-- The command "shareholders", element 14 of the literal `GetterCommands`. -/
def shareholders : cobra.Command where
  Use := "shareholders"
  Short := "Gets the total number of shareholders"
  Example := "t0ken token shareholders"
  Args := cobra.PositionalArgs.plain cobra.Arity.NoArgs
  PreRun := some cobra.Hook.connectCaller
  Run := fun _ => some [cobra.Effect.CheckGetter "Shareholders" []]
  Flags := []

/-- The command "symbol", element 15 of the literal `GetterCommands`. -/
def symbol : cobra.Command where
  Use := "symbol"
  Short := "Gets the symbol of the t0ken"
  Example := "t0ken token symbol"
  Args := cobra.PositionalArgs.plain cobra.Arity.NoArgs
  PreRun := some cobra.Hook.connectCaller
  Run := fun _ => some [cobra.Effect.CheckGetter "Symbol" []]
  Flags := []

/-- The command "totalSupply", element 16 of the literal `GetterCommands`. -/
def totalSupply : cobra.Command where
  Use := "totalSupply"
  Short := "Gets the total supply"
  Example := "t0ken token totalSupply"
  Args := cobra.PositionalArgs.plain cobra.Arity.NoArgs
  PreRun := some cobra.Hook.connectCaller
  Run := fun _ => some [cobra.Effect.CheckGetter "TotalSupply" []]
  Flags := []

/-- The contract-specific getters of the token, in the order of the literal. -/
def specificGetters : List cobra.Command :=
  [allowance, balanceOf, cancellations, compliance, decimals, getSuperseded, holderAt,
   isHolder, isSuperseded, issuer, issuingFinished, name, shareholders, symbol, totalSupply]


/-- The literal value of `var GetterCommands`: seventeen new command objects, and the slice
of the pointers to them. -/
def GetterCommands (p : Package) : cobra.Registry where
  GetterCommands :=
    [cobra.Ref.declared 0, cobra.Ref.declared 1, cobra.Ref.declared 2, cobra.Ref.declared 3,
     cobra.Ref.declared 4, cobra.Ref.declared 5, cobra.Ref.declared 6, cobra.Ref.declared 7,
     cobra.Ref.declared 8, cobra.Ref.declared 9, cobra.Ref.declared 10, cobra.Ref.declared 11,
     cobra.Ref.declared 12, cobra.Ref.declared 13, cobra.Ref.declared 14,
     cobra.Ref.declared 15, cobra.Ref.declared 16]
  objects := cobra.Objects.mk (abi p :: bin p :: specificGetters) p.handed

/-- The two `append` statements of `init`: the lockable getters, then the ownable ones. -/
def assemble (p : Package) (g : cobra.Registry) : cobra.Registry :=
  let g : cobra.Registry := { g with GetterCommands := g.GetterCommands ++
    (p.lockable_NewGetterCommands p.contractKey).map cobra.Ref.handed }
  let g : cobra.Registry := { g with GetterCommands := g.GetterCommands ++
    (p.ownable_NewGetterCommands p.contractKey).map cobra.Ref.handed }
  g

/-- The function `func init()`: the two appends, then the flag loop over the whole slice. -/
def init (p : Package) (g : cobra.Registry) : Except String cobra.Registry :=
  let g := assemble p g
  match addAddressFlags (addressUsage p.contractKey) 0 g.GetterCommands g.objects with
  | Except.error e => Except.error e
  | Except.ok o => Except.ok { g with objects := o }

end token

/-- A getter as a capability module builds it: no arguments, connects first, one read of the
call session, no flag defined yet. -/
def stubGetter (use method : String) : cobra.Command where
  Use := use
  Short := "Gets " ++ use
  Example := "t0ken investor " ++ use
  Args := cobra.PositionalArgs.plain cobra.Arity.NoArgs
  PreRun := some cobra.Hook.connectCaller
  Run := fun _ => some [cobra.Effect.CheckAddressGetter method []]
  Flags := []

/-- The objects of the capability packages in the examples: object 0 is the getter "owner",
objects 1 and 2 are the getters "isLocked" and "isLocker", any other number is nil. -/
def stubHanded : Nat → Option cobra.Command
  | 0 => some (stubGetter "owner" "Owner")
  | 1 => some (stubGetter "isLocked" "IsLocked")
  | 2 => some (stubGetter "isLocker <address>" "IsLocker")
  | _ => none

/-- A package for the examples: the ownable module returns object 0, the lockable module
objects 1 and 2. -/
def stubPackage : Package where
  contractKey := "registry"
  ABI := "[abi-text]"
  Bin := "0x6080"
  handed := stubHanded
  ownable_NewGetterCommands := fun _ => [0]
  lockable_NewGetterCommands := fun _ => [1, 2]

/-- A package whose two capability modules return one and the same object. -/
def sharingPackage : Package where
  contractKey := "registry"
  ABI := "[abi-text]"
  Bin := "0x6080"
  handed := stubHanded
  ownable_NewGetterCommands := fun _ => [0]
  lockable_NewGetterCommands := fun _ => [1, 0]

/-- The objects of the capability packages when the example is built a second time, afresh:
new objects 7, 8 and 9 with the names of the first build. -/
def rebuiltHanded : Nat → Option cobra.Command
  | 7 => some (stubGetter "owner" "Owner")
  | 8 => some (stubGetter "isLocked" "IsLocked")
  | 9 => some (stubGetter "isLocker <address>" "IsLocker")
  | _ => none

/-- The example package built afresh: the modules return the new objects. -/
def rebuiltPackage : Package where
  contractKey := "registry"
  ABI := "[abi-text]"
  Bin := "0x6080"
  handed := rebuiltHanded
  ownable_NewGetterCommands := fun _ => [7]
  lockable_NewGetterCommands := fun _ => [8, 9]

/-! ## Theorems: package nonce -/

namespace nonce

theorem SetNonce_keeps_flag {σ : Type} (c : cli.Conn σ) (n : Nat) (st : State σ) :
    (SetNonce c n st).1.nonce = st.nonce := by
  unfold SetNonce
  split <;> rfl

theorem Get_of_flag_set {σ : Type} (c : cli.Conn σ) (st : State σ) (h : st.nonce ≠ 0) :
    Get c st = (st, (st.nonce, none)) := by
  unfold Get
  rw [if_pos (Nat.pos_of_ne_zero h)]

theorem Get_of_flag_unset {σ : Type} (c : cli.Conn σ) (st : State σ) (h : st.nonce = 0) :
    Get c st =
      ({ st with Conn := (c.PendingNonceAt st.Conn (c.From st.Conn)).1,
                 calls := st.calls ++ [cli.ConnCall.PendingNonceAt (c.From st.Conn)] },
        (c.PendingNonceAt st.Conn (c.From st.Conn)).2) := by
  unfold Get
  rw [if_neg (by omega)]

theorem SetNonce_logs_no_query {σ : Type} (c : cli.Conn σ) (n : Nat) (st : State σ)
    (a : cli.Address) (h : cli.ConnCall.PendingNonceAt a ∈ (SetNonce c n st).1.calls) :
    cli.ConnCall.PendingNonceAt a ∈ st.calls := by
  unfold SetNonce at h
  split at h <;> simpa using h

theorem runCalls_of_flag_set {σ : Type} (c : cli.Conn σ) (calls : List Call) :
    ∀ st : State σ, st.nonce ≠ 0 →
      (∀ r ∈ (runCalls c calls st).2, r = (st.nonce, none)) ∧
      (runCalls c calls st).1.nonce = st.nonce ∧
      (∀ a, cli.ConnCall.PendingNonceAt a ∈ (runCalls c calls st).1.calls →
        cli.ConnCall.PendingNonceAt a ∈ st.calls) := by
  induction calls with
  | nil => intro st _; simp [runCalls]
  | cons call rest ih =>
    intro st h
    cases call with
    | SetNonce n =>
      have hk := SetNonce_keeps_flag c n st
      have ih1 := ih (SetNonce c n st).1 (by rw [hk]; exact h)
      rw [hk] at ih1
      refine ⟨ih1.1, ih1.2.1, fun a ha => ?_⟩
      exact SetNonce_logs_no_query c n st a (ih1.2.2 a ha)
    | Get =>
      have hg := Get_of_flag_set c st h
      have ih1 := ih st h
      simp only [runCalls, hg]
      refine ⟨?_, ih1.2.1, ih1.2.2⟩
      intro r hr
      rcases List.mem_cons.mp hr with h0 | h1
      · exact h0
      · exact ih1.1 r h1

/-- C1 (as stated, refuted): over a connection that reports 7, with the flag unset,
`SetNonce(5)` is followed by a `Get` that returns `(7, nil)`, not `(5, nil)`; the value 5
went to the transactor of the connection and the package-level nonce is still 0. -/
theorem C1_SetNonce_does_not_steer_Get :
    (Get (stubConn fun _ => 7) (SetNonce (stubConn fun _ => 7) 5 (stubStart 0)).1).2
        = (7, none) ∧
    (Get (stubConn fun _ => 7) (SetNonce (stubConn fun _ => 7) 5 (stubStart 0)).1).2
        ≠ (5, none) ∧
    (SetNonce (stubConn fun _ => 7) 5 (stubStart 0)).1.nonce = 0 ∧
    (SetNonce (stubConn fun _ => 7) 5 (stubStart 0)).1.Conn = (0, some 5) := by
  decide

/-- C1 (amended): when the package-level nonce (the value of the 'nonce' flag) is a
non-zero `n`, every `Get` in any sequence of `SetNonce` and `Get` calls returns exactly
`(n, nil)`, whatever the connection reports; no call of `SetNonce`, with a zero or a non-zero
argument, changes the package-level nonce, and no `PendingNonceAt` query is made. -/
theorem C1_Get_returns_the_flag_value {σ : Type} (c : cli.Conn σ) (n : Nat) (hn : n ≠ 0)
    (st : State σ) (hst : st.nonce = n) (calls : List Call) :
    (∀ r ∈ (runCalls c calls st).2, r = (n, none)) ∧
    (runCalls c calls st).1.nonce = n ∧
    (∀ m, (SetNonce c m st).1.nonce = n) ∧
    (∀ a, cli.ConnCall.PendingNonceAt a ∈ (runCalls c calls st).1.calls →
      cli.ConnCall.PendingNonceAt a ∈ st.calls) := by
  subst hst
  have h := runCalls_of_flag_set c calls st hn
  exact ⟨h.1, h.2.1, fun m => SetNonce_keeps_flag c m st, h.2.2⟩

/-- C1 (amended), at the stub that reports 7 with the flag at 5: both `Get` calls of
`SetNonce(5); Get; SetNonce(0); Get` return `(5, nil)`. -/
theorem C1_Get_returns_the_flag_value_witness :
    (5 : Nat) ≠ 0 ∧ (stubStart 5).nonce = 5 ∧
    (runCalls (stubConn fun _ => 7)
        [Call.SetNonce 5, Call.Get, Call.SetNonce 0, Call.Get] (stubStart 5)).2
      = [(5, none), (5, none)] ∧
    ∀ r ∈ (runCalls (stubConn fun _ => 7)
        [Call.SetNonce 5, Call.Get, Call.SetNonce 0, Call.Get] (stubStart 5)).2,
      r = (5, none) :=
  ⟨by decide, rfl, by decide,
    (C1_Get_returns_the_flag_value (stubConn fun _ => 7) 5 (by decide) (stubStart 5) rfl
      [Call.SetNonce 5, Call.Get, Call.SetNonce 0, Call.Get]).1⟩

end nonce

namespace nonce

/-- C2: `Get` equals the reference definition for every value of the package-level nonce
and every connection: a non-zero nonce is returned as `(nonce, nil)` with the state, the
connection and the invocation log untouched; with the nonce at 0 the result is exactly the
pair `PendingNonceAt` answers for `Conn.Opts.From`, after that one query; so `Get` returns an
error exactly when the nonce is 0 and the query fails. -/
theorem C2_Get_refines_reference {σ : Type} (c : cli.Conn σ) (st : State σ) :
    Get c st = Get_reference c st ∧
    (st.nonce > 0 → Get c st = (st, (st.nonce, none))) ∧
    (st.nonce = 0 →
      (Get c st).2 = (c.PendingNonceAt st.Conn (c.From st.Conn)).2 ∧
      (Get c st).1.Conn = (c.PendingNonceAt st.Conn (c.From st.Conn)).1 ∧
      (Get c st).1.calls = st.calls ++ [cli.ConnCall.PendingNonceAt (c.From st.Conn)]) ∧
    ((Get c st).2.2 ≠ none ↔
      st.nonce = 0 ∧ (c.PendingNonceAt st.Conn (c.From st.Conn)).2.2 ≠ none) := by
  refine ⟨?_, ?_, ?_, ?_⟩
  · obtain ⟨flag, conn, log⟩ := st
    cases flag with
    | zero => rfl
    | succ k => simp [Get, Get_reference]
  · intro h
    exact Get_of_flag_set c st (by omega)
  · intro h
    rw [Get_of_flag_unset c st h]
    exact ⟨rfl, rfl, rfl⟩
  · by_cases h : st.nonce = 0
    · rw [Get_of_flag_unset c st h]
      simp [h]
    · rw [Get_of_flag_set c st h]
      simp [h]

/-- C2, at the stubs: with the flag unset and a chain that reports 7, `Get` returns
`(7, nil)` after one query for the active account; with the flag at 3 it returns `(3, nil)`
and the log stays empty; over an unreachable connection it returns the error. -/
theorem C2_Get_refines_reference_witness :
    (Get (stubConn fun _ => 7) (stubStart 0)).2 = (7, none) ∧
    (Get (stubConn fun _ => 7) (stubStart 0)).1.calls = [cli.ConnCall.PendingNonceAt 0xdead] ∧
    (stubStart 3).nonce > 0 ∧
    Get (stubConn fun _ => 7) (stubStart 3) = (stubStart 3, (3, none)) ∧
    (Get downConn (State.mk 0 () [])).2 = (0, some "connection refused") :=
  ⟨((C2_Get_refines_reference (stubConn fun _ => 7) (stubStart 0)).2.2.1 rfl).1,
   ((C2_Get_refines_reference (stubConn fun _ => 7) (stubStart 0)).2.2.1 rfl).2.2,
   by decide,
   (C2_Get_refines_reference (stubConn fun _ => 7) (stubStart 3)).2.1 (by decide),
   ((C2_Get_refines_reference downConn (State.mk 0 () [])).2.2.1 rfl).1⟩

/-- C3 (as stated, refuted): with the flag at 9 over a chain that reports 5 to the first
query and 6 afterwards, `SetNonce(0)` returns no error, the package-level nonce is still 9,
and the next `Get` returns `(9, nil)` without any `PendingNonceAt` query: not the 6 a fresh
query would report. -/
theorem C3_SetNonce_zero_keeps_the_flag :
    (SetNonce (stubConn fun k => if k = 0 then 5 else 6) 0 (stubStart 9)).2 = none ∧
    (SetNonce (stubConn fun k => if k = 0 then 5 else 6) 0 (stubStart 9)).1.nonce = 9 ∧
    (Get (stubConn fun k => if k = 0 then 5 else 6)
        (SetNonce (stubConn fun k => if k = 0 then 5 else 6) 0 (stubStart 9)).1).2
      = (9, none) ∧
    (Get (stubConn fun k => if k = 0 then 5 else 6)
        (SetNonce (stubConn fun k => if k = 0 then 5 else 6) 0 (stubStart 9)).1).2
      ≠ (6, none) ∧
    (Get (stubConn fun k => if k = 0 then 5 else 6)
        (SetNonce (stubConn fun k => if k = 0 then 5 else 6) 0 (stubStart 9)).1).1.calls
      = [cli.ConnCall.SetNextNonce] := by
  decide

/-- C3 (amended): from every state whose package-level nonce is 0 and over every
connection, after `SetNonce(0)` (which leaves the package-level nonce at 0 and passes on what
`SetNextNonce` answers) the next `Get` makes one fresh `PendingNonceAt` query for the active
account on the connection as it is at that moment, and returns exactly what that query
answers. -/
theorem C3_Get_after_resync_queries_afresh {σ : Type} (c : cli.Conn σ) (st : State σ)
    (hst : st.nonce = 0) :
    (SetNonce c 0 st).1.nonce = 0 ∧
    (SetNonce c 0 st).1.Conn = (c.SetNextNonce st.Conn).1 ∧
    (Get c (SetNonce c 0 st).1).2 =
      (c.PendingNonceAt (SetNonce c 0 st).1.Conn (c.From (SetNonce c 0 st).1.Conn)).2 ∧
    (Get c (SetNonce c 0 st).1).1.Conn =
      (c.PendingNonceAt (SetNonce c 0 st).1.Conn (c.From (SetNonce c 0 st).1.Conn)).1 ∧
    (Get c (SetNonce c 0 st).1).1.calls =
      st.calls ++ [cli.ConnCall.SetNextNonce,
        cli.ConnCall.PendingNonceAt (c.From (SetNonce c 0 st).1.Conn)] := by
  have hk : (SetNonce c 0 st).1.nonce = 0 := by rw [SetNonce_keeps_flag, hst]
  refine ⟨hk, ?_, ?_, ?_, ?_⟩
  · simp [SetNonce]
  · rw [Get_of_flag_unset c _ hk]
  · rw [Get_of_flag_unset c _ hk]
  · rw [Get_of_flag_unset c _ hk]
    simp [SetNonce]

/-- C3 (amended), at the chain that reports 5 then 6 with the flag unset: the first `Get`
returns 5, `SetNonce(0)` returns no error, and the `Get` after it returns 6. -/
theorem C3_Get_after_resync_queries_afresh_witness :
    (Get (stubConn fun k => if k = 0 then 5 else 6) (stubStart 0)).1.nonce = 0 ∧
    (Get (stubConn fun k => if k = 0 then 5 else 6) (stubStart 0)).2 = (5, none) ∧
    (SetNonce (stubConn fun k => if k = 0 then 5 else 6) 0
        (Get (stubConn fun k => if k = 0 then 5 else 6) (stubStart 0)).1).2 = none ∧
    (Get (stubConn fun k => if k = 0 then 5 else 6)
        (SetNonce (stubConn fun k => if k = 0 then 5 else 6) 0
          (Get (stubConn fun k => if k = 0 then 5 else 6) (stubStart 0)).1).1).2
      = (6, none) :=
  ⟨rfl, by decide, by decide,
   (C3_Get_after_resync_queries_afresh (stubConn fun k => if k = 0 then 5 else 6)
      (Get (stubConn fun k => if k = 0 then 5 else 6) (stubStart 0)).1 rfl).2.2.1.trans
        (by decide)⟩

/-- C6: `SetNonce` fails only when re-synchronisation is requested and then exactly as the
connection does: for `n ≠ 0` it returns no error, hands `n` to the connection's `SetNonce`
and invokes nothing else; for 0 it returns the very error value of `SetNextNonce` (`nil`
included), so it fails if and only if `SetNextNonce` fails. -/
theorem C6_SetNonce_reports_the_connection_error {σ : Type} (c : cli.Conn σ) (n : Nat)
    (st : State σ) :
    (n ≠ 0 →
      (SetNonce c n st).2 = none ∧
      (SetNonce c n st).1.Conn = c.SetNonce st.Conn n ∧
      (SetNonce c n st).1.calls = st.calls ++ [cli.ConnCall.SetNonce n]) ∧
    (SetNonce c 0 st).2 = (c.SetNextNonce st.Conn).2 ∧
    (SetNonce c 0 st).1.Conn = (c.SetNextNonce st.Conn).1 ∧
    (SetNonce c 0 st).1.calls = st.calls ++ [cli.ConnCall.SetNextNonce] ∧
    ((SetNonce c 0 st).2 ≠ none ↔ (c.SetNextNonce st.Conn).2 ≠ none) ∧
    ((SetNonce c n st).2 ≠ none → n = 0 ∧ (c.SetNextNonce st.Conn).2 = (SetNonce c n st).2) := by
  refine ⟨?_, ?_, ?_, ?_, ?_, ?_⟩
  · intro hn
    simp [SetNonce, hn]
  · simp [SetNonce]
  · simp [SetNonce]
  · simp [SetNonce]
  · simp [SetNonce]
  · intro h
    by_cases hn : n = 0
    · subst hn
      exact ⟨rfl, by simp [SetNonce]⟩
    · exact absurd (by simp [SetNonce, hn]) h

/-- C6, at the stubs: `SetNonce(3)` over the unreachable connection returns no error, and
`SetNonce(0)` returns its "connection refused"; over the reachable stub `SetNonce(0)` returns
no error. -/
theorem C6_SetNonce_reports_the_connection_error_witness :
    (3 : Nat) ≠ 0 ∧
    (SetNonce downConn 3 (State.mk 0 () [])).2 = none ∧
    (SetNonce downConn 3 (State.mk 0 () [])).1.calls = [cli.ConnCall.SetNonce 3] ∧
    (SetNonce downConn 0 (State.mk 0 () [])).2 = some "connection refused" ∧
    (SetNonce (stubConn fun _ => 7) 0 (stubStart 0)).2 = none :=
  ⟨by decide,
   ((C6_SetNonce_reports_the_connection_error downConn 3 (State.mk 0 () [])).1
      (by decide)).1,
   ((C6_SetNonce_reports_the_connection_error downConn 3 (State.mk 0 () [])).1
      (by decide)).2.2,
   (C6_SetNonce_reports_the_connection_error downConn 3 (State.mk 0 () [])).2.1,
   (C6_SetNonce_reports_the_connection_error (stubConn fun _ => 7) 0 (stubStart 0)).2.1⟩

end nonce

namespace nonce

/-- C9: for every single argument `s`, `nonce next s` runs without a panic; the address is
the one parsed from `s` when `s` is a valid hex address and the one the keystore-alias
resolver returns otherwise; when that resolution succeeds with `a` and the chain answers
`(n, nil)` for `a`, the command prints exactly `n` after that one query; when `s` is neither
a valid hex address nor a resolvable alias the command fails with the resolver's error and
the connection is never queried; a failing query ends the command with the query's error. -/
theorem C9_next_prints_the_pending_nonce {σ : Type} (r : cli.Resolver) (c : cli.Conn σ)
    (s : String) (st : State σ) :
    cobra.Arity.accepts NextCommand_Args.arity [s] = true ∧
    ∃ out, NextCommand_Run r c [s] st = some out ∧
      (∀ a n,
        (if r.IsHexAddress s then (r.HexToAddress s, none)
          else r.AddressForKeystoreAlias s) = (a, none) →
        (c.PendingNonceAt st.Conn a).2 = (n, none) →
          out.printed = [n] ∧ out.failed = none ∧
          out.state.calls = st.calls ++ [cli.ConnCall.PendingNonceAt a] ∧
          out.state.Conn = (c.PendingNonceAt st.Conn a).1) ∧
      (∀ e, r.IsHexAddress s = false → (r.AddressForKeystoreAlias s).2 = some e →
          out.failed = some e ∧ out.printed = [] ∧ out.state = st) ∧
      (∀ a e,
        (if r.IsHexAddress s then (r.HexToAddress s, none)
          else r.AddressForKeystoreAlias s) = (a, none) →
        (c.PendingNonceAt st.Conn a).2.2 = some e →
          out.failed = some e ∧ out.printed = []) := by
  refine ⟨by simp [NextCommand_Args, cobra.PositionalArgs.arity, cobra.Arity.accepts],
    _, rfl, ?_, ?_, ?_⟩
  · intro a n hres hq
    by_cases hx : r.IsHexAddress s = true
    · simp only [hx, if_true] at hres
      simp only [Prod.mk.injEq, and_true] at hres
      simp [cli.GetArgAddress, hx, CheckErr, hres, hq]
    · simp only [hx] at hres
      have hfalse : r.IsHexAddress s = false := by simpa using hx
      simp only [Bool.false_eq_true, if_false] at hres
      simp [hfalse, CheckErr, hres, hq]
  · intro e hx he
    simp [hx, CheckErr, he]
  · intro a e hres hq
    by_cases hx : r.IsHexAddress s = true
    · simp only [hx, if_true] at hres
      simp only [Prod.mk.injEq, and_true] at hres
      simp [cli.GetArgAddress, hx, CheckErr, hres, hq]
    · have hfalse : r.IsHexAddress s = false := by simpa using hx
      simp only [hfalse, Bool.false_eq_true, if_false] at hres
      simp [hfalse, CheckErr, hres, hq]

end nonce

namespace nonce

/-- C9, at the stubs: the alias "treasury" resolves to `0xdead`, the chain reports 12, and
the command prints 12; the unknown alias "nobody" ends the command with the resolver's error
and the state, connection and log included, is untouched. -/
theorem C9_next_prints_the_pending_nonce_witness :
    (∃ out, NextCommand_Run stubResolver (stubConn fun _ => 12) ["treasury"] (stubStart 0)
        = some out ∧ out.printed = [12] ∧ out.failed = none ∧
        out.state.calls = [cli.ConnCall.PendingNonceAt 0xdead]) ∧
    (∃ out, NextCommand_Run stubResolver (stubConn fun _ => 12) ["nobody"] (stubStart 0)
        = some out ∧ out.printed = [] ∧ out.failed = some "unknown keystore alias" ∧
        out.state = stubStart 0) :=
  ⟨match C9_next_prints_the_pending_nonce stubResolver (stubConn fun _ => 12) "treasury"
      (stubStart 0) with
    | ⟨_, out, hrun, hprint, _, _⟩ =>
      ⟨out, hrun, (hprint 0xdead 12 (by decide) (by decide)).1,
        (hprint 0xdead 12 (by decide) (by decide)).2.1,
        (hprint 0xdead 12 (by decide) (by decide)).2.2.1⟩,
   match C9_next_prints_the_pending_nonce stubResolver (stubConn fun _ => 12) "nobody"
      (stubStart 0) with
    | ⟨_, out, hrun, _, hfail, _⟩ =>
      ⟨out, hrun, (hfail "unknown keystore alias" (by decide) (by decide)).2.1,
        (hfail "unknown keystore alias" (by decide) (by decide)).1,
        (hfail "unknown keystore alias" (by decide) (by decide)).2.2⟩⟩

end nonce


/-! ## Theorems: the flag loop and the registries -/

theorem nonce.Flag_stores_the_default {σ : Type} (cmd cmd1 : cobra.Command)
    (st st1 : nonce.State σ) (h : nonce.Flag cmd st = Except.ok (cmd1, st1)) :
    st1.nonce = 0 ∧ st1.Conn = st.Conn ∧ st1.calls = st.calls := by
  unfold nonce.Flag at h
  split at h
  · cases h
  · cases h
    exact ⟨rfl, rfl, rfl⟩

theorem DefineString_ok (fs fs1 : pflag.FlagSet) (name value usage : String)
    (h : pflag.FlagSet.DefineString fs name value usage = Except.ok fs1) :
    fs.named name = [] ∧ fs1 = fs ++ [pflag.Flag.mk name pflag.Kind.string value usage] := by
  unfold pflag.FlagSet.DefineString at h
  split at h
  · rename_i hnone
    cases h
    exact ⟨hnone, rfl⟩
  · cases h

theorem DefineString_of_fresh (fs : pflag.FlagSet) (name value usage : String)
    (h : fs.named name = []) :
    pflag.FlagSet.DefineString fs name value usage =
      Except.ok (fs ++ [pflag.Flag.mk name pflag.Kind.string value usage]) := by
  unfold pflag.FlagSet.DefineString
  rw [if_pos h]

theorem DefineString_of_defined (fs : pflag.FlagSet) (name value usage : String)
    (h : fs.named name ≠ []) :
    pflag.FlagSet.DefineString fs name value usage =
      Except.error ("flag redefined: " ++ name) := by
  unfold pflag.FlagSet.DefineString
  rw [if_neg h]

theorem named_append_fresh (fs : pflag.FlagSet) (name value usage : String)
    (h : fs.named name = []) :
    pflag.FlagSet.named (fs ++ [pflag.Flag.mk name pflag.Kind.string value usage]) name =
      [pflag.Flag.mk name pflag.Kind.string value usage] := by
  unfold pflag.FlagSet.named at h ⊢
  rw [List.filter_append, h]
  simp

theorem withAddressFlag_named (usage : String) (cmd : cobra.Command)
    (h : cmd.Flags.named "address" = []) :
    (cmd.withAddressFlag usage).Flags.named "address" =
      [pflag.Flag.mk "address" pflag.Kind.string "" usage] :=
  named_append_fresh _ _ _ _ h

theorem withAddressFlag_Name (usage : String) (cmd : cobra.Command) :
    (cmd.withAddressFlag usage).Name = cmd.Name := rfl

theorem Objects_get_set_same (o : cobra.Objects) (r : cobra.Ref) (c0 c : cobra.Command)
    (h : o.get r = some c0) : (o.set r c).get r = some c := by
  cases r with
  | declared k =>
    simp only [cobra.Objects.get] at h
    have hk : k < o.declared.length := (List.getElem?_eq_some_iff.mp h).1
    simp [cobra.Objects.get, cobra.Objects.set, hk]
  | handed k => simp [cobra.Objects.get, cobra.Objects.set]

theorem Objects_get_set_other (o : cobra.Objects) (r r1 : cobra.Ref) (c : cobra.Command)
    (h : r1 ≠ r) : (o.set r c).get r1 = o.get r1 := by
  cases r with
  | declared k =>
    cases r1 with
    | declared k1 =>
      have hk : k ≠ k1 := fun e => h (by rw [e])
      simp [cobra.Objects.get, cobra.Objects.set, List.getElem?_set_ne hk]
    | handed k1 => rfl
  | handed k =>
    cases r1 with
    | declared k1 => rfl
    | handed k1 =>
      have hk : k1 ≠ k := fun e => h (by rw [e])
      simp [cobra.Objects.get, cobra.Objects.set, hk]

/-- The loop, from a position at or beyond 2, when it completes: no object stands twice in
the list; every object of the list had no 'address' flag and has got exactly the one the loop
defines; every object outside the list is as before. -/
theorem addAddressFlags_touched (usage : String) (rs : List cobra.Ref) :
    ∀ (i : Nat) (o o1 : cobra.Objects), 2 ≤ i → addAddressFlags usage i rs o = Except.ok o1 →
      rs.Nodup ∧
      (∀ r ∈ rs, ∃ c, o.get r = some c ∧ c.Flags.named "address" = [] ∧
        o1.get r = some (c.withAddressFlag usage)) ∧
      (∀ r, r ∉ rs → o1.get r = o.get r) := by
  induction rs with
  | nil =>
    intro i o o1 _ h
    simp only [addAddressFlags] at h
    cases h
    simp
  | cons r rest ih =>
    intro i o o1 hi h
    rw [addAddressFlags, if_neg (by omega)] at h
    split at h
    · cases h
    · rename_i cmd hget
      split at h
      · cases h
      · rename_i fs hfs
        obtain ⟨hfresh, hfs1⟩ := DefineString_ok _ _ _ _ _ hfs
        subst hfs1
        obtain ⟨hnd, hin, hout⟩ := ih (i + 1) _ o1 (by omega) h
        have hset : (o.set r (cmd.withAddressFlag usage)).get r =
            some (cmd.withAddressFlag usage) := Objects_get_set_same o r cmd _ hget
        have hr : r ∉ rest := by
          intro hmem
          obtain ⟨c, hc, hcf, _⟩ := hin r hmem
          have hc1 : (o.set r (cmd.withAddressFlag usage)).get r = some c := hc
          rw [hset] at hc1
          cases hc1
          rw [withAddressFlag_named usage cmd hfresh] at hcf
          cases hcf
        refine ⟨List.nodup_cons.mpr ⟨hr, hnd⟩, ?_, ?_⟩
        · intro r1 hr1
          rcases List.mem_cons.mp hr1 with h1 | h1
          · subst h1
            refine ⟨cmd, hget, hfresh, ?_⟩
            rw [hout r1 hr]
            exact hset
          · obtain ⟨c, hc, hcf, hc1⟩ := hin r1 h1
            have hne : r1 ≠ r := fun e => hr (e ▸ h1)
            have hc0 : (o.set r (cmd.withAddressFlag usage)).get r1 = some c := hc
            rw [Objects_get_set_other o r r1 _ hne] at hc0
            exact ⟨c, hc0, hcf, hc1⟩
        · intro r1 hr1
          have hne : r1 ≠ r := fun e => hr1 (e ▸ List.mem_cons_self _ _)
          have hnr : r1 ∉ rest := fun hm => hr1 (List.mem_cons_of_mem _ hm)
          have := hout r1 hnr
          rw [this]
          exact Objects_get_set_other o r r1 _ hne

/-- The loop, from a position at or beyond 2, completes when no object stands twice in the
list and every object of the list is there and has no 'address' flag. -/
theorem addAddressFlags_touched_returns (usage : String) (rs : List cobra.Ref) :
    ∀ (i : Nat) (o : cobra.Objects), 2 ≤ i → rs.Nodup →
      (∀ r ∈ rs, ∃ c, o.get r = some c ∧ c.Flags.named "address" = []) →
      ∃ o1, addAddressFlags usage i rs o = Except.ok o1 := by
  induction rs with
  | nil => intro i o _ _ _; exact ⟨o, rfl⟩
  | cons r rest ih =>
    intro i o hi hnd hfresh
    obtain ⟨hr, hnd1⟩ := List.nodup_cons.mp hnd
    obtain ⟨cmd, hget, hcf⟩ := hfresh r (List.mem_cons_self _ _)
    rw [addAddressFlags, if_neg (by omega)]
    simp only [hget, DefineString_of_fresh _ _ _ _ hcf]
    apply ih (i + 1) _ (by omega) hnd1
    intro r1 hr1
    obtain ⟨c, hc, hcf1⟩ := hfresh r1 (List.mem_cons_of_mem _ hr1)
    have hne : r1 ≠ r := fun e => hr (e ▸ hr1)
    exact ⟨c, by rw [Objects_get_set_other o r r1 _ hne]; exact hc, hcf1⟩

/-- The loop, from a position at or beyond 2, panics at once when the first object has an
'address' flag already. -/
theorem addAddressFlags_redefines (usage : String) (r : cobra.Ref) (rest : List cobra.Ref)
    (i : Nat) (o : cobra.Objects) (c : cobra.Command) (hi : 2 ≤ i) (hget : o.get r = some c)
    (hc : c.Flags.named "address" ≠ []) :
    addAddressFlags usage i (r :: rest) o = Except.error "flag redefined: address" := by
  rw [addAddressFlags, if_neg (by omega)]
  simp only [hget, DefineString_of_defined _ _ _ _ hc]
  rfl

/-- The loop from position 0 skips the first two references. -/
theorem addAddressFlags_skips_two (usage : String) (r0 r1 : cobra.Ref) (rest : List cobra.Ref)
    (o : cobra.Objects) :
    addAddressFlags usage 0 (r0 :: r1 :: rest) o = addAddressFlags usage 2 rest o := by
  rw [addAddressFlags, if_pos (by omega), addAddressFlags, if_pos (by omega)]

theorem handed_injective : Function.Injective cobra.Ref.handed := by
  intro a b h
  cases h
  rfl

theorem declared_not_handed (r : cobra.Ref) (hs : List Nat) (h : ∃ k, r = cobra.Ref.declared k) :
    r ∉ hs.map cobra.Ref.handed := by
  obtain ⟨k, hk⟩ := h
  subst hk
  simp

/-- The list the loop works on after its two skips, `ds ++ hs.map handed` with `ds` objects
of the literal and `hs` the objects returned by the modules: it is free of repetitions
exactly when `hs` is, and the two skipped references are not in it. -/
theorem rest_facts (r0 r1 : cobra.Ref) (ds : List cobra.Ref) (hs : List Nat)
    (hdecl : ∀ r ∈ r0 :: r1 :: ds, ∃ k, r = cobra.Ref.declared k)
    (hnd : (r0 :: r1 :: ds).Nodup) :
    r0 ∉ ds ++ hs.map cobra.Ref.handed ∧ r1 ∉ ds ++ hs.map cobra.Ref.handed ∧
    ((ds ++ hs.map cobra.Ref.handed).Nodup ↔ hs.Nodup) := by
  obtain ⟨h0, hnd1⟩ := List.nodup_cons.mp hnd
  obtain ⟨h1, hnd2⟩ := List.nodup_cons.mp hnd1
  have h0ds : r0 ∉ ds := fun hm => h0 (List.mem_cons_of_mem _ hm)
  refine ⟨?_, ?_, ?_⟩
  · intro hm
    rcases List.mem_append.mp hm with h | h
    · exact h0ds h
    · exact declared_not_handed r0 hs (hdecl r0 (List.mem_cons_self _ _)) h
  · intro hm
    rcases List.mem_append.mp hm with h | h
    · exact h1 h
    · exact declared_not_handed r1 hs
        (hdecl r1 (List.mem_cons_of_mem _ (List.mem_cons_self _ _))) h
  · constructor
    · intro h
      have h2 : (hs.map cobra.Ref.handed).Nodup := (List.nodup_append.mp h).2.1
      exact List.Nodup.of_map _ h2
    · intro h
      refine List.nodup_append.mpr ⟨hnd2, List.Nodup.map handed_injective h, ?_⟩
      intro r hr hr1
      exact declared_not_handed r hs
        (hdecl r (List.mem_cons_of_mem _ (List.mem_cons_of_mem _ hr))) hr1

/-- The flag loop over a registry `r0 :: r1 :: ds ++ hs.map handed` whose first references
point to objects of the literal: it completes exactly when the modules returned no object
twice and every object they returned is there and has no 'address' flag. -/
theorem loop_returns_iff (usage : String) (r0 r1 : cobra.Ref) (ds : List cobra.Ref)
    (hs : List Nat) (o : cobra.Objects)
    (hdecl : ∀ r ∈ r0 :: r1 :: ds, ∃ k, r = cobra.Ref.declared k)
    (hnd : (r0 :: r1 :: ds).Nodup)
    (hfresh : ∀ r ∈ ds, ∃ c, o.get r = some c ∧ c.Flags.named "address" = []) :
    (∃ o1, addAddressFlags usage 0 (r0 :: r1 :: (ds ++ hs.map cobra.Ref.handed)) o
        = Except.ok o1) ↔
      hs.Nodup ∧ ∀ k ∈ hs, ∃ c, o.handed k = some c ∧ c.Flags.named "address" = [] := by
  obtain ⟨_, _, hiff⟩ := rest_facts r0 r1 ds hs hdecl hnd
  rw [addAddressFlags_skips_two]
  constructor
  · rintro ⟨o1, h⟩
    obtain ⟨hnodup, hin, _⟩ := addAddressFlags_touched usage _ 2 o o1 (by omega) h
    refine ⟨hiff.mp hnodup, ?_⟩
    intro k hk
    obtain ⟨c, hc, hcf, _⟩ := hin (cobra.Ref.handed k)
      (List.mem_append.mpr (Or.inr (List.mem_map.mpr ⟨k, hk, rfl⟩)))
    exact ⟨c, hc, hcf⟩
  · rintro ⟨hnodup, hhs⟩
    apply addAddressFlags_touched_returns usage _ 2 o (by omega) (hiff.mpr hnodup)
    intro r hr
    rcases List.mem_append.mp hr with h | h
    · exact hfresh r h
    · obtain ⟨k, hk, hkr⟩ := List.mem_map.mp h
      subst hkr
      exact hhs k hk

/-- The flag loop over a registry whose first two commands carry no 'address' flag and
stand nowhere else in it, when it completes, position by position: the command at a position
below 2 is the one that was there, still without the flag; the command at any other position
is the one that was there with the flag the loop defines, its only flag of that name. -/
theorem loop_positions (usage : String) (r0 r1 : cobra.Ref) (rest : List cobra.Ref)
    (o o1 : cobra.Objects)
    (h : addAddressFlags usage 0 (r0 :: r1 :: rest) o = Except.ok o1)
    (h0 : r0 ∉ rest) (h1 : r1 ∉ rest) (c0 c1 : cobra.Command)
    (hc0 : o.get r0 = some c0) (hc1 : o.get r1 = some c1)
    (hf0 : c0.Flags.named "address" = []) (hf1 : c1.Flags.named "address" = []) :
    ∀ i, i < (r0 :: r1 :: rest).length →
      ∃ cmd0 cmd, (cobra.Registry.mk (r0 :: r1 :: rest) o).command i = some cmd0 ∧
        (cobra.Registry.mk (r0 :: r1 :: rest) o1).command i = some cmd ∧
        (i < 2 → cmd = cmd0 ∧ cmd.Flags.named "address" = []) ∧
        (2 ≤ i → cmd = cmd0.withAddressFlag usage ∧
          cmd.Flags.named "address" = [pflag.Flag.mk "address" pflag.Kind.string "" usage]) := by
  rw [addAddressFlags_skips_two] at h
  obtain ⟨_, hin, hout⟩ := addAddressFlags_touched usage rest 2 o o1 (by omega) h
  intro i hi
  match i, hi with
  | 0, _ =>
    refine ⟨c0, c0, ?_, ?_, fun _ => ⟨rfl, hf0⟩, fun h2 => absurd h2 (by omega)⟩
    · simpa [cobra.Registry.command] using hc0
    · simpa [cobra.Registry.command, hout r0 h0] using hc0
  | 1, _ =>
    refine ⟨c1, c1, ?_, ?_, fun _ => ⟨rfl, hf1⟩, fun h2 => absurd h2 (by omega)⟩
    · simpa [cobra.Registry.command] using hc1
    · simpa [cobra.Registry.command, hout r1 h1] using hc1
  | j + 2, hj =>
    have hjl : j < rest.length := by simpa using hj
    obtain ⟨c, hc, hcf, hc1⟩ := hin rest[j] (List.getElem_mem _)
    refine ⟨c, c.withAddressFlag usage, ?_, ?_, fun hlt => absurd hlt (by omega),
      fun _ => ⟨rfl, withAddressFlag_named usage c hcf⟩⟩
    · simpa [cobra.Registry.command, List.getElem?_eq_getElem hjl] using hc
    · simpa [cobra.Registry.command, List.getElem?_eq_getElem hjl] using hc1

/-- The flag loop, when it completes, leaves every name as it is. -/
theorem loop_names (usage : String) (r0 r1 : cobra.Ref) (rest : List cobra.Ref)
    (o o1 : cobra.Objects)
    (h : addAddressFlags usage 0 (r0 :: r1 :: rest) o = Except.ok o1) :
    (cobra.Registry.mk (r0 :: r1 :: rest) o1).names =
      (cobra.Registry.mk (r0 :: r1 :: rest) o).names := by
  rw [addAddressFlags_skips_two] at h
  obtain ⟨_, hin, hout⟩ := addAddressFlags_touched usage rest 2 o o1 (by omega) h
  unfold cobra.Registry.names
  apply List.map_congr_left
  intro r hr
  by_cases hm : r ∈ rest
  · obtain ⟨c, hc, _, hc1⟩ := hin r hm
    simp only [hc, hc1, Option.map_some']
    rfl
  · simp only [hout r hm]

/-- The references of the broker's literal after the first two. -/
theorem broker_assembled (p : Package) :
    broker.assemble p (broker.GetterCommands p) =
      cobra.Registry.mk
        (cobra.Ref.declared 0 :: cobra.Ref.declared 1 :: ([cobra.Ref.declared 2] ++
          (p.ownable_NewGetterCommands p.contractKey ++
            p.lockable_NewGetterCommands p.contractKey).map cobra.Ref.handed))
        (cobra.Objects.mk [broker.abi p, broker.bin p, broker.storage] p.handed) := by
  simp [broker.assemble, broker.GetterCommands]

theorem token_assembled (p : Package) :
    token.assemble p (token.GetterCommands p) =
      cobra.Registry.mk
        (cobra.Ref.declared 0 :: cobra.Ref.declared 1 ::
          ([cobra.Ref.declared 2, cobra.Ref.declared 3, cobra.Ref.declared 4,
            cobra.Ref.declared 5, cobra.Ref.declared 6, cobra.Ref.declared 7,
            cobra.Ref.declared 8, cobra.Ref.declared 9, cobra.Ref.declared 10,
            cobra.Ref.declared 11, cobra.Ref.declared 12, cobra.Ref.declared 13,
            cobra.Ref.declared 14, cobra.Ref.declared 15, cobra.Ref.declared 16] ++
          (p.lockable_NewGetterCommands p.contractKey ++
            p.ownable_NewGetterCommands p.contractKey).map cobra.Ref.handed))
        (cobra.Objects.mk (token.abi p :: token.bin p :: token.specificGetters) p.handed) := by
  simp [token.assemble, token.GetterCommands]

theorem broker_init_ok (p : Package) (g : cobra.Registry) :
    broker.init p (broker.GetterCommands p) = Except.ok g ↔
      ∃ o1, addAddressFlags (addressUsage p.contractKey) 0
          (broker.assemble p (broker.GetterCommands p)).GetterCommands
          (broker.assemble p (broker.GetterCommands p)).objects = Except.ok o1 ∧
        g = cobra.Registry.mk (broker.assemble p (broker.GetterCommands p)).GetterCommands o1 := by
  unfold broker.init
  dsimp only
  constructor
  · intro h
    split at h
    · cases h
    · rename_i o1 ho
      cases h
      exact ⟨o1, ho, rfl⟩
  · rintro ⟨o1, ho, hg⟩
    simp only [ho, hg]

theorem token_init_ok (p : Package) (g : cobra.Registry) :
    token.init p (token.GetterCommands p) = Except.ok g ↔
      ∃ o1, addAddressFlags (addressUsage p.contractKey) 0
          (token.assemble p (token.GetterCommands p)).GetterCommands
          (token.assemble p (token.GetterCommands p)).objects = Except.ok o1 ∧
        g = cobra.Registry.mk (token.assemble p (token.GetterCommands p)).GetterCommands o1 := by
  unfold token.init
  dsimp only
  constructor
  · intro h
    split at h
    · cases h
    · rename_i o1 ho
      cases h
      exact ⟨o1, ho, rfl⟩
  · rintro ⟨o1, ho, hg⟩
    simp only [ho, hg]

theorem broker_literal_facts (p : Package) :
    (∀ r ∈ cobra.Ref.declared 0 :: cobra.Ref.declared 1 :: [cobra.Ref.declared 2],
      ∃ k, r = cobra.Ref.declared k) ∧
    (cobra.Ref.declared 0 :: cobra.Ref.declared 1 :: [cobra.Ref.declared 2]).Nodup ∧
    (∀ r ∈ [cobra.Ref.declared 2], ∃ c,
      (cobra.Objects.mk [broker.abi p, broker.bin p, broker.storage] p.handed).get r = some c ∧
      c.Flags.named "address" = []) := by
  refine ⟨?_, by decide, ?_⟩
  · intro r hr
    simp only [List.mem_cons, List.mem_singleton, List.not_mem_nil, or_false] at hr
    rcases hr with h | h | h <;> exact ⟨_, h⟩
  · intro r hr
    simp only [List.mem_cons, List.mem_singleton, List.not_mem_nil, or_false] at hr
    subst hr
    exact ⟨_, rfl, rfl⟩

theorem token_literal_facts (p : Package) :
    (∀ r ∈ cobra.Ref.declared 0 :: cobra.Ref.declared 1 ::
        [cobra.Ref.declared 2, cobra.Ref.declared 3, cobra.Ref.declared 4,
         cobra.Ref.declared 5, cobra.Ref.declared 6, cobra.Ref.declared 7,
         cobra.Ref.declared 8, cobra.Ref.declared 9, cobra.Ref.declared 10,
         cobra.Ref.declared 11, cobra.Ref.declared 12, cobra.Ref.declared 13,
         cobra.Ref.declared 14, cobra.Ref.declared 15, cobra.Ref.declared 16],
      ∃ k, r = cobra.Ref.declared k) ∧
    (cobra.Ref.declared 0 :: cobra.Ref.declared 1 ::
        [cobra.Ref.declared 2, cobra.Ref.declared 3, cobra.Ref.declared 4,
         cobra.Ref.declared 5, cobra.Ref.declared 6, cobra.Ref.declared 7,
         cobra.Ref.declared 8, cobra.Ref.declared 9, cobra.Ref.declared 10,
         cobra.Ref.declared 11, cobra.Ref.declared 12, cobra.Ref.declared 13,
         cobra.Ref.declared 14, cobra.Ref.declared 15, cobra.Ref.declared 16]).Nodup ∧
    (∀ r ∈ [cobra.Ref.declared 2, cobra.Ref.declared 3, cobra.Ref.declared 4,
         cobra.Ref.declared 5, cobra.Ref.declared 6, cobra.Ref.declared 7,
         cobra.Ref.declared 8, cobra.Ref.declared 9, cobra.Ref.declared 10,
         cobra.Ref.declared 11, cobra.Ref.declared 12, cobra.Ref.declared 13,
         cobra.Ref.declared 14, cobra.Ref.declared 15, cobra.Ref.declared 16], ∃ c,
      (cobra.Objects.mk (token.abi p :: token.bin p :: token.specificGetters) p.handed).get r
        = some c ∧ c.Flags.named "address" = []) := by
  refine ⟨?_, by decide, ?_⟩
  · intro r hr
    simp only [List.mem_cons, List.mem_singleton, List.not_mem_nil, or_false] at hr
    rcases hr with h | h | h | h | h | h | h | h | h | h | h | h | h | h | h | h | h <;>
      exact ⟨_, h⟩
  · intro r hr
    simp only [List.mem_cons, List.mem_singleton, List.not_mem_nil, or_false] at hr
    rcases hr with h | h | h | h | h | h | h | h | h | h | h | h | h | h | h <;>
      subst h <;> exact ⟨_, rfl, rfl⟩

/-- C4: in both registries, for every output of the two capability modules, once the flag
loop of `init` has run to its end: the registry holds the very references that were
assembled; the commands at positions 0 and 1 are the ones assembled there and carry no flag
named "address"; the command at every position `i ≥ 2` is the one assembled there with
exactly one flag named "address", of string type, with the empty string as default.  The
loop runs to its end exactly when the modules returned no command object twice and every
object they returned is there and has no 'address' flag yet. -/
theorem C4_address_flag_from_position_two_on (p : Package) :
    (∀ g, broker.init p (broker.GetterCommands p) = Except.ok g →
      g.GetterCommands = (broker.assemble p (broker.GetterCommands p)).GetterCommands ∧
      ∀ i, i < (broker.assemble p (broker.GetterCommands p)).GetterCommands.length →
        ∃ cmd0 cmd, (broker.assemble p (broker.GetterCommands p)).command i = some cmd0 ∧
          g.command i = some cmd ∧
          (i < 2 → cmd = cmd0 ∧ cmd.Flags.named "address" = []) ∧
          (2 ≤ i → cmd = cmd0.withAddressFlag (addressUsage p.contractKey) ∧
            cmd.Flags.named "address" =
              [pflag.Flag.mk "address" pflag.Kind.string "" (addressUsage p.contractKey)])) ∧
    (∀ g, token.init p (token.GetterCommands p) = Except.ok g →
      g.GetterCommands = (token.assemble p (token.GetterCommands p)).GetterCommands ∧
      ∀ i, i < (token.assemble p (token.GetterCommands p)).GetterCommands.length →
        ∃ cmd0 cmd, (token.assemble p (token.GetterCommands p)).command i = some cmd0 ∧
          g.command i = some cmd ∧
          (i < 2 → cmd = cmd0 ∧ cmd.Flags.named "address" = []) ∧
          (2 ≤ i → cmd = cmd0.withAddressFlag (addressUsage p.contractKey) ∧
            cmd.Flags.named "address" =
              [pflag.Flag.mk "address" pflag.Kind.string "" (addressUsage p.contractKey)])) ∧
    ((∃ g, broker.init p (broker.GetterCommands p) = Except.ok g) ↔
      (p.ownable_NewGetterCommands p.contractKey ++
        p.lockable_NewGetterCommands p.contractKey).Nodup ∧
      ∀ k ∈ p.ownable_NewGetterCommands p.contractKey ++
          p.lockable_NewGetterCommands p.contractKey,
        ∃ c, p.handed k = some c ∧ c.Flags.named "address" = []) ∧
    ((∃ g, token.init p (token.GetterCommands p) = Except.ok g) ↔
      (p.lockable_NewGetterCommands p.contractKey ++
        p.ownable_NewGetterCommands p.contractKey).Nodup ∧
      ∀ k ∈ p.lockable_NewGetterCommands p.contractKey ++
          p.ownable_NewGetterCommands p.contractKey,
        ∃ c, p.handed k = some c ∧ c.Flags.named "address" = []) := by
  obtain ⟨hbd, hbn, hbf⟩ := broker_literal_facts p
  obtain ⟨htd, htn, htf⟩ := token_literal_facts p
  refine ⟨?_, ?_, ?_, ?_⟩
  · intro g hg
    obtain ⟨o1, ho, hgeq⟩ := (broker_init_ok p g).mp hg
    subst hgeq
    refine ⟨rfl, ?_⟩
    rw [broker_assembled p] at ho ⊢
    obtain ⟨h0, h1, _⟩ := rest_facts _ _ _
      (p.ownable_NewGetterCommands p.contractKey ++ p.lockable_NewGetterCommands p.contractKey)
      hbd hbn
    exact loop_positions _ _ _ _ _ o1 ho h0 h1 (broker.abi p) (broker.bin p) rfl rfl rfl rfl
  · intro g hg
    obtain ⟨o1, ho, hgeq⟩ := (token_init_ok p g).mp hg
    subst hgeq
    refine ⟨rfl, ?_⟩
    rw [token_assembled p] at ho ⊢
    obtain ⟨h0, h1, _⟩ := rest_facts _ _ _
      (p.lockable_NewGetterCommands p.contractKey ++ p.ownable_NewGetterCommands p.contractKey)
      htd htn
    exact loop_positions _ _ _ _ _ o1 ho h0 h1 (token.abi p) (token.bin p) rfl rfl rfl rfl
  · rw [← loop_returns_iff (addressUsage p.contractKey) _ _ _ _
      (cobra.Objects.mk [broker.abi p, broker.bin p, broker.storage] p.handed) hbd hbn hbf]
    constructor
    · rintro ⟨g, hg⟩
      obtain ⟨o1, ho, _⟩ := (broker_init_ok p g).mp hg
      rw [broker_assembled p] at ho
      exact ⟨o1, ho⟩
    · rintro ⟨o1, ho⟩
      refine ⟨_, (broker_init_ok p _).mpr ⟨o1, ?_, rfl⟩⟩
      rw [broker_assembled p]
      exact ho
  · rw [← loop_returns_iff (addressUsage p.contractKey) _ _ _ _
      (cobra.Objects.mk (token.abi p :: token.bin p :: token.specificGetters) p.handed)
      htd htn htf]
    constructor
    · rintro ⟨g, hg⟩
      obtain ⟨o1, ho, _⟩ := (token_init_ok p g).mp hg
      rw [token_assembled p] at ho
      exact ⟨o1, ho⟩
    · rintro ⟨o1, ho⟩
      refine ⟨_, (token_init_ok p _).mpr ⟨o1, ?_, rfl⟩⟩
      rw [token_assembled p]
      exact ho

theorem stubPackage_modules_fresh :
    (∀ k ∈ stubPackage.ownable_NewGetterCommands stubPackage.contractKey ++
        stubPackage.lockable_NewGetterCommands stubPackage.contractKey,
      ∃ c, stubPackage.handed k = some c ∧ c.Flags.named "address" = []) ∧
    (∀ k ∈ stubPackage.lockable_NewGetterCommands stubPackage.contractKey ++
        stubPackage.ownable_NewGetterCommands stubPackage.contractKey,
      ∃ c, stubPackage.handed k = some c ∧ c.Flags.named "address" = []) := by
  constructor
  · intro k hk
    simp only [stubPackage, List.mem_append, List.mem_cons, List.mem_singleton,
      List.not_mem_nil, or_false] at hk
    rcases hk with h | h | h <;> subst h <;> exact ⟨_, rfl, rfl⟩
  · intro k hk
    simp only [stubPackage, List.mem_append, List.mem_cons, List.mem_singleton,
      List.not_mem_nil, or_false] at hk
    rcases hk with (h | h) | h <;> subst h <;> exact ⟨_, rfl, rfl⟩

/-- C4, at the example packages: `init` of the broker returns a registry of 6 commands and
`init` of the token one of 20; in each the command at position 1 carries no 'address' flag,
the commands at position 2 (declared) and at the last position (from a module) carry exactly
one; and when the two modules return one and the same object, `init` does not return. -/
theorem C4_address_flag_from_position_two_on_witness :
    (∃ g, broker.init stubPackage (broker.GetterCommands stubPackage) = Except.ok g ∧
      g.GetterCommands.length = 6 ∧
      (∃ cmd, g.command 1 = some cmd ∧ cmd.Flags.named "address" = []) ∧
      (∃ cmd, g.command 2 = some cmd ∧ cmd.Flags.named "address" =
        [pflag.Flag.mk "address" pflag.Kind.string "" (addressUsage "registry")]) ∧
      (∃ cmd, g.command 5 = some cmd ∧ cmd.Flags.named "address" =
        [pflag.Flag.mk "address" pflag.Kind.string "" (addressUsage "registry")])) ∧
    (∃ g, token.init stubPackage (token.GetterCommands stubPackage) = Except.ok g ∧
      g.GetterCommands.length = 20 ∧
      (∃ cmd, g.command 1 = some cmd ∧ cmd.Flags.named "address" = []) ∧
      (∃ cmd, g.command 2 = some cmd ∧ cmd.Flags.named "address" =
        [pflag.Flag.mk "address" pflag.Kind.string "" (addressUsage "registry")]) ∧
      (∃ cmd, g.command 19 = some cmd ∧ cmd.Flags.named "address" =
        [pflag.Flag.mk "address" pflag.Kind.string "" (addressUsage "registry")])) ∧
    (¬ ∃ g, broker.init sharingPackage (broker.GetterCommands sharingPackage) = Except.ok g) ∧
    (¬ ∃ g, token.init sharingPackage (token.GetterCommands sharingPackage) = Except.ok g) := by
  obtain ⟨gb, hgb⟩ := (C4_address_flag_from_position_two_on stubPackage).2.2.1.mpr
    ⟨by decide, stubPackage_modules_fresh.1⟩
  obtain ⟨gt, hgt⟩ := (C4_address_flag_from_position_two_on stubPackage).2.2.2.mpr
    ⟨by decide, stubPackage_modules_fresh.2⟩
  obtain ⟨hbrefs, hbpos⟩ := (C4_address_flag_from_position_two_on stubPackage).1 gb hgb
  obtain ⟨htrefs, htpos⟩ := (C4_address_flag_from_position_two_on stubPackage).2.1 gt hgt
  refine ⟨⟨gb, hgb, by rw [hbrefs]; rfl, ?_, ?_, ?_⟩, ⟨gt, hgt, by rw [htrefs]; rfl, ?_, ?_, ?_⟩,
    ?_, ?_⟩
  · obtain ⟨_, cmd, _, hc, hlow, _⟩ := hbpos 1 (by decide)
    exact ⟨cmd, hc, (hlow (by decide)).2⟩
  · obtain ⟨_, cmd, _, hc, _, hhigh⟩ := hbpos 2 (by decide)
    exact ⟨cmd, hc, (hhigh (by decide)).2⟩
  · obtain ⟨_, cmd, _, hc, _, hhigh⟩ := hbpos 5 (by decide)
    exact ⟨cmd, hc, (hhigh (by decide)).2⟩
  · obtain ⟨_, cmd, _, hc, hlow, _⟩ := htpos 1 (by decide)
    exact ⟨cmd, hc, (hlow (by decide)).2⟩
  · obtain ⟨_, cmd, _, hc, _, hhigh⟩ := htpos 2 (by decide)
    exact ⟨cmd, hc, (hhigh (by decide)).2⟩
  · obtain ⟨_, cmd, _, hc, _, hhigh⟩ := htpos 19 (by decide)
    exact ⟨cmd, hc, (hhigh (by decide)).2⟩
  · exact fun h => absurd ((C4_address_flag_from_position_two_on sharingPackage).2.2.1.mp h).1
      (by decide)
  · exact fun h => absurd ((C4_address_flag_from_position_two_on sharingPackage).2.2.2.mp h).1
      (by decide)

/-- The names in a registry after `init` are the names that were assembled. -/
theorem init_keeps_names (p : Package) :
    (∀ g, broker.init p (broker.GetterCommands p) = Except.ok g →
      g.names = (broker.assemble p (broker.GetterCommands p)).names) ∧
    (∀ g, token.init p (token.GetterCommands p) = Except.ok g →
      g.names = (token.assemble p (token.GetterCommands p)).names) := by
  constructor
  · intro g hg
    obtain ⟨o1, ho, hgeq⟩ := (broker_init_ok p g).mp hg
    subst hgeq
    rw [broker_assembled p] at ho ⊢
    exact loop_names _ _ _ _ _ o1 ho
  · intro g hg
    obtain ⟨o1, ho, hgeq⟩ := (token_init_ok p g).mp hg
    subst hgeq
    rw [token_assembled p] at ho ⊢
    exact loop_names _ _ _ _ _ o1 ho

/-- C5: for every pair of module outputs, the assembled registry is the concatenation of the
declared commands and the two capability sets, in that order, reference by reference and
command by command: for the broker `[abi, bin, storage] ++ own ++ lock`, of length
`2 + 1 + |own| + |lock|`; for the token `[abi, bin] ++` its 15 contract-specific getters
(allowance ... totalSupply, in declaration order) `++ lock ++ own`, of length
`2 + 15 + |lock| + |own|`.  The flag loop that follows keeps the references, hence the
length, and the names. -/
theorem C5_registry_is_the_concatenation (p : Package) :
    (broker.assemble p (broker.GetterCommands p)).GetterCommands =
      [cobra.Ref.declared 0, cobra.Ref.declared 1, cobra.Ref.declared 2] ++
        (p.ownable_NewGetterCommands p.contractKey).map cobra.Ref.handed ++
        (p.lockable_NewGetterCommands p.contractKey).map cobra.Ref.handed ∧
    (broker.assemble p (broker.GetterCommands p)).commands =
      [some (broker.abi p), some (broker.bin p), some broker.storage] ++
        (p.ownable_NewGetterCommands p.contractKey).map p.handed ++
        (p.lockable_NewGetterCommands p.contractKey).map p.handed ∧
    (broker.assemble p (broker.GetterCommands p)).GetterCommands.length =
      2 + 1 + (p.ownable_NewGetterCommands p.contractKey).length +
        (p.lockable_NewGetterCommands p.contractKey).length ∧
    (broker.GetterCommands p).names = [some "abi", some "bin", some "storage"] ∧
    (token.assemble p (token.GetterCommands p)).GetterCommands =
      (token.GetterCommands p).GetterCommands ++
        (p.lockable_NewGetterCommands p.contractKey).map cobra.Ref.handed ++
        (p.ownable_NewGetterCommands p.contractKey).map cobra.Ref.handed ∧
    (token.assemble p (token.GetterCommands p)).commands =
      [some (token.abi p), some (token.bin p)] ++
        [some token.allowance, some token.balanceOf, some token.cancellations,
         some token.compliance, some token.decimals, some token.getSuperseded,
         some token.holderAt, some token.isHolder, some token.isSuperseded,
         some token.issuer, some token.issuingFinished, some token.name,
         some token.shareholders, some token.symbol, some token.totalSupply] ++
        (p.lockable_NewGetterCommands p.contractKey).map p.handed ++
        (p.ownable_NewGetterCommands p.contractKey).map p.handed ∧
    (token.assemble p (token.GetterCommands p)).GetterCommands.length =
      2 + 15 + (p.lockable_NewGetterCommands p.contractKey).length +
        (p.ownable_NewGetterCommands p.contractKey).length ∧
    (token.GetterCommands p).names =
      [some "abi", some "bin", some "allowance", some "balanceOf", some "cancellations",
       some "compliance", some "decimals", some "getSuperseded", some "holderAt",
       some "isHolder", some "isSuperseded", some "issuer", some "issuingFinished",
       some "name", some "shareholders", some "symbol", some "totalSupply"] ∧
    (∀ g, broker.init p (broker.GetterCommands p) = Except.ok g →
      g.GetterCommands = (broker.assemble p (broker.GetterCommands p)).GetterCommands ∧
      g.GetterCommands.length = (broker.assemble p (broker.GetterCommands p)).GetterCommands.length ∧
      g.names = (broker.assemble p (broker.GetterCommands p)).names) ∧
    (∀ g, token.init p (token.GetterCommands p) = Except.ok g →
      g.GetterCommands = (token.assemble p (token.GetterCommands p)).GetterCommands ∧
      g.GetterCommands.length = (token.assemble p (token.GetterCommands p)).GetterCommands.length ∧
      g.names = (token.assemble p (token.GetterCommands p)).names) := by
  refine ⟨rfl, ?_, ?_, rfl, rfl, ?_, ?_, rfl, ?_, ?_⟩
  · simp [cobra.Registry.commands, broker.assemble, broker.GetterCommands, cobra.Objects.get,
      Function.comp_def]
  · simp only [broker.assemble, broker.GetterCommands, List.length_append, List.length_cons,
      List.length_nil, List.length_map]
  · simp [cobra.Registry.commands, token.assemble, token.GetterCommands, cobra.Objects.get,
      token.specificGetters, Function.comp_def]
  · simp only [token.assemble, token.GetterCommands, List.length_append, List.length_cons,
      List.length_nil, List.length_map]
  · intro g hg
    obtain ⟨o1, _, hgeq⟩ := (broker_init_ok p g).mp hg
    have hrefs : g.GetterCommands =
        (broker.assemble p (broker.GetterCommands p)).GetterCommands := by rw [hgeq]
    exact ⟨hrefs, by rw [hrefs], (init_keeps_names p).1 g hg⟩
  · intro g hg
    obtain ⟨o1, _, hgeq⟩ := (token_init_ok p g).mp hg
    have hrefs : g.GetterCommands =
        (token.assemble p (token.GetterCommands p)).GetterCommands := by rw [hgeq]
    exact ⟨hrefs, by rw [hrefs], (init_keeps_names p).2 g hg⟩

/-- C5, at the example package: the broker registry has `2 + 1 + 1 + 2 = 6` commands named
abi, bin, storage, owner, isLocked, isLocker, and the token registry `2 + 15 + 2 + 1 = 20`,
before and after the flag loop. -/
theorem C5_registry_is_the_concatenation_witness :
    (∃ g, broker.init stubPackage (broker.GetterCommands stubPackage) = Except.ok g ∧
      g.GetterCommands.length = 6 ∧
      g.names = [some "abi", some "bin", some "storage", some "owner", some "isLocked",
        some "isLocker"]) ∧
    (∃ g, token.init stubPackage (token.GetterCommands stubPackage) = Except.ok g ∧
      g.GetterCommands.length = 20 ∧
      g.names =
        [some "abi", some "bin", some "allowance", some "balanceOf", some "cancellations",
         some "compliance", some "decimals", some "getSuperseded", some "holderAt",
         some "isHolder", some "isSuperseded", some "issuer", some "issuingFinished",
         some "name", some "shareholders", some "symbol", some "totalSupply",
         some "isLocked", some "isLocker", some "owner"]) := by
  obtain ⟨gb, hgb⟩ : ∃ g, broker.init stubPackage (broker.GetterCommands stubPackage)
      = Except.ok g := ⟨_, rfl⟩
  obtain ⟨gt, hgt⟩ : ∃ g, token.init stubPackage (token.GetterCommands stubPackage)
      = Except.ok g := ⟨_, rfl⟩
  obtain ⟨_, hbl, hbn⟩ := (C5_registry_is_the_concatenation stubPackage).2.2.2.2.2.2.2.2.1 gb hgb
  obtain ⟨_, htl, htn⟩ := (C5_registry_is_the_concatenation stubPackage).2.2.2.2.2.2.2.2.2 gt hgt
  exact ⟨⟨gb, hgb, hbl.trans (by decide), hbn.trans (by decide)⟩,
    ⟨gt, hgt, htl.trans (by decide), htn.trans (by decide)⟩⟩

theorem NoArgs_accepts_iff (args : List String) :
    cobra.Arity.accepts cobra.Arity.NoArgs args = true ↔ args = [] := by
  cases args <;> simp [cobra.Arity.accepts]

theorem assembled_heads (p : Package) :
    (broker.assemble p (broker.GetterCommands p)).command 0 = some (broker.abi p) ∧
    (broker.assemble p (broker.GetterCommands p)).command 1 = some (broker.bin p) ∧
    (token.assemble p (token.GetterCommands p)).command 0 = some (token.abi p) ∧
    (token.assemble p (token.GetterCommands p)).command 1 = some (token.bin p) := by
  rw [broker_assembled p, token_assembled p]
  simp [cobra.Registry.command, cobra.Objects.get]

/-- After `init`, positions 0 and 1 hold the objects of the literal they held before, with
their contents unchanged. -/
theorem init_heads (p : Package) :
    (∀ g, broker.init p (broker.GetterCommands p) = Except.ok g →
      g.command 0 = some (broker.abi p) ∧ g.command 1 = some (broker.bin p)) ∧
    (∀ g, token.init p (token.GetterCommands p) = Except.ok g →
      g.command 0 = some (token.abi p) ∧ g.command 1 = some (token.bin p)) := by
  obtain ⟨hbd, hbn, _⟩ := broker_literal_facts p
  obtain ⟨htd, htn, _⟩ := token_literal_facts p
  constructor
  · intro g hg
    obtain ⟨o1, ho, hgeq⟩ := (broker_init_ok p g).mp hg
    subst hgeq
    rw [broker_assembled p] at ho ⊢
    obtain ⟨h0, h1, _⟩ := rest_facts _ _ _
      (p.ownable_NewGetterCommands p.contractKey ++ p.lockable_NewGetterCommands p.contractKey)
      hbd hbn
    have hpos := loop_positions _ _ _ _ _ o1 ho h0 h1 (broker.abi p) (broker.bin p)
      rfl rfl rfl rfl
    constructor
    · obtain ⟨cmd0, cmd, hc0, hc, hlow, _⟩ := hpos 0 (by simp)
      have e : cmd0 = broker.abi p := by
        simpa [cobra.Registry.command, cobra.Objects.get] using hc0.symm
      rw [hc, (hlow (by omega)).1, e]
    · obtain ⟨cmd0, cmd, hc0, hc, hlow, _⟩ := hpos 1 (by simp)
      have e : cmd0 = broker.bin p := by
        simpa [cobra.Registry.command, cobra.Objects.get] using hc0.symm
      rw [hc, (hlow (by omega)).1, e]
  · intro g hg
    obtain ⟨o1, ho, hgeq⟩ := (token_init_ok p g).mp hg
    subst hgeq
    rw [token_assembled p] at ho ⊢
    obtain ⟨h0, h1, _⟩ := rest_facts _ _ _
      (p.lockable_NewGetterCommands p.contractKey ++ p.ownable_NewGetterCommands p.contractKey)
      htd htn
    have hpos := loop_positions _ _ _ _ _ o1 ho h0 h1 (token.abi p) (token.bin p)
      rfl rfl rfl rfl
    constructor
    · obtain ⟨cmd0, cmd, hc0, hc, hlow, _⟩ := hpos 0 (by simp)
      have e : cmd0 = token.abi p := by
        simpa [cobra.Registry.command, cobra.Objects.get] using hc0.symm
      rw [hc, (hlow (by omega)).1, e]
    · obtain ⟨cmd0, cmd, hc0, hc, hlow, _⟩ := hpos 1 (by simp)
      have e : cmd0 = token.bin p := by
        simpa [cobra.Registry.command, cobra.Objects.get] using hc0.symm
      rw [hc, (hlow (by omega)).1, e]

/-- C7: in both registries, for every output of the capability modules, positions 0 and 1 of
the assembled registry, before and after the flag loop, hold the commands named "abi" and
"bin"; each takes `cobra.NoArgs`, which lets through the empty argument list only; each has
no pre-execution hook; and for every argument list its body performs exactly one step, the
printing of the stored ABI text (position 0) or binary text (position 1), which is not a
step on the chain connection. -/
theorem C7_introspection_commands_lead (p : Package) :
    ((broker.assemble p (broker.GetterCommands p)).command 0 = some (broker.abi p) ∧
     (broker.assemble p (broker.GetterCommands p)).command 1 = some (broker.bin p) ∧
     (token.assemble p (token.GetterCommands p)).command 0 = some (token.abi p) ∧
     (token.assemble p (token.GetterCommands p)).command 1 = some (token.bin p)) ∧
    (∀ g, broker.init p (broker.GetterCommands p) = Except.ok g →
      g.command 0 = some (broker.abi p) ∧ g.command 1 = some (broker.bin p)) ∧
    (∀ g, token.init p (token.GetterCommands p) = Except.ok g →
      g.command 0 = some (token.abi p) ∧ g.command 1 = some (token.bin p)) ∧
    ((broker.abi p).Name = "abi" ∧ (broker.bin p).Name = "bin" ∧
     (token.abi p).Name = "abi" ∧ (token.bin p).Name = "bin") ∧
    (∀ cmd ∈ [broker.abi p, broker.bin p, token.abi p, token.bin p],
      cmd.Args = cobra.PositionalArgs.plain cobra.Arity.NoArgs ∧
      (∀ args, cobra.Arity.accepts cmd.Args.arity args = true ↔ args = []) ∧
      cmd.PreRun = none ∧
      ∀ args, ∃ steps, cmd.Run args = some steps ∧ ∀ e ∈ steps, e.onChain = false) ∧
    (∀ args,
      (broker.abi p).Run args = some [cobra.Effect.Println p.ABI] ∧
      (broker.bin p).Run args = some [cobra.Effect.Println p.Bin] ∧
      (token.abi p).Run args = some [cobra.Effect.Println p.ABI] ∧
      (token.bin p).Run args = some [cobra.Effect.Println p.Bin]) := by
  obtain ⟨hb0, hb1, ht0, ht1⟩ := assembled_heads p
  refine ⟨⟨hb0, hb1, ht0, ht1⟩, ?_, ?_, ⟨rfl, rfl, rfl, rfl⟩, ?_,
    fun _ => ⟨rfl, rfl, rfl, rfl⟩⟩
  · exact (init_heads p).1
  · exact (init_heads p).2
  · intro cmd hc
    simp only [List.mem_cons, List.mem_singleton, List.not_mem_nil, or_false] at hc
    rcases hc with h | h | h | h <;> subst h <;>
      exact ⟨rfl, NoArgs_accepts_iff, rfl, fun _ => ⟨_, rfl, by simp [cobra.Effect.onChain]⟩⟩

/-- C7, at the example package: after `init`, the broker registry starts with the commands
named "abi" and "bin", and running "abi" with no arguments prints the stored ABI text and
nothing else. -/
theorem C7_introspection_commands_lead_witness :
    ∃ g, broker.init stubPackage (broker.GetterCommands stubPackage) = Except.ok g ∧
      g.command 0 = some (broker.abi stubPackage) ∧
      g.command 1 = some (broker.bin stubPackage) ∧
      (broker.abi stubPackage).Run [] = some [cobra.Effect.Println "[abi-text]"] ∧
      cobra.Arity.accepts (broker.abi stubPackage).Args.arity [] = true ∧
      cobra.Arity.accepts (broker.abi stubPackage).Args.arity ["x"] = false := by
  obtain ⟨g, hg⟩ : ∃ g, broker.init stubPackage (broker.GetterCommands stubPackage)
      = Except.ok g := ⟨_, rfl⟩
  exact ⟨g, hg,
    ((C7_introspection_commands_lead stubPackage).2.1 g hg).1,
    ((C7_introspection_commands_lead stubPackage).2.1 g hg).2,
    ((C7_introspection_commands_lead stubPackage).2.2.2.2.2 []).1,
    by decide, by decide⟩

/-- The names of the assembled registries: those of the literal, then those of the module
outputs in the order of the appends. -/
theorem assembled_names (p : Package) :
    (broker.assemble p (broker.GetterCommands p)).names =
      [some "abi", some "bin", some "storage"] ++
        (p.ownable_NewGetterCommands p.contractKey).map
          (fun k => (p.handed k).map cobra.Command.Name) ++
        (p.lockable_NewGetterCommands p.contractKey).map
          (fun k => (p.handed k).map cobra.Command.Name) ∧
    (token.assemble p (token.GetterCommands p)).names =
      [some "abi", some "bin", some "allowance", some "balanceOf", some "cancellations",
       some "compliance", some "decimals", some "getSuperseded", some "holderAt",
       some "isHolder", some "isSuperseded", some "issuer", some "issuingFinished",
       some "name", some "shareholders", some "symbol", some "totalSupply"] ++
        (p.lockable_NewGetterCommands p.contractKey).map
          (fun k => (p.handed k).map cobra.Command.Name) ++
        (p.ownable_NewGetterCommands p.contractKey).map
          (fun k => (p.handed k).map cobra.Command.Name) := by
  constructor
  · have h : (broker.GetterCommands p).names = [some "abi", some "bin", some "storage"] := rfl
    rw [← h]
    simp [cobra.Registry.names, broker.assemble, broker.GetterCommands, cobra.Objects.get,
      Function.comp_def]
  · have h : (token.GetterCommands p).names =
        [some "abi", some "bin", some "allowance", some "balanceOf", some "cancellations",
         some "compliance", some "decimals", some "getSuperseded", some "holderAt",
         some "isHolder", some "isSuperseded", some "issuer", some "issuingFinished",
         some "name", some "shareholders", some "symbol", some "totalSupply"] := rfl
    rw [← h]
    simp [cobra.Registry.names, token.assemble, token.GetterCommands, cobra.Objects.get,
      Function.comp_def]

theorem names_length (g : cobra.Registry) : g.names.length = g.GetterCommands.length := by
  simp [cobra.Registry.names]

/-- A second run of `init` over the command objects of a first run that returned, be it
from the literal slice again or from the slice the first run left, and whatever the modules
return this time, panics at position 2: the declared object there carries the 'address' flag
of the first run. -/
theorem init_second_run_panics (p q : Package) :
    (∀ g1, broker.init p (broker.GetterCommands p) = Except.ok g1 →
      broker.init q (cobra.Registry.mk (broker.GetterCommands p).GetterCommands g1.objects) =
        Except.error "flag redefined: address" ∧
      broker.init q g1 = Except.error "flag redefined: address") ∧
    (∀ g1, token.init p (token.GetterCommands p) = Except.ok g1 →
      token.init q (cobra.Registry.mk (token.GetterCommands p).GetterCommands g1.objects) =
        Except.error "flag redefined: address" ∧
      token.init q g1 = Except.error "flag redefined: address") := by
  obtain ⟨hbd, hbn, _⟩ := broker_literal_facts p
  obtain ⟨htd, htn, _⟩ := token_literal_facts p
  constructor
  · intro g1 hg
    obtain ⟨o1, ho, hgeq⟩ := (broker_init_ok p g1).mp hg
    subst hgeq
    rw [broker_assembled p] at ho
    obtain ⟨h0, h1, _⟩ := rest_facts _ _ _
      (p.ownable_NewGetterCommands p.contractKey ++ p.lockable_NewGetterCommands p.contractKey)
      hbd hbn
    obtain ⟨cmd0, cmd, _, hc, _, hhigh⟩ :=
      loop_positions _ _ _ _ _ o1 ho h0 h1 (broker.abi p) (broker.bin p) rfl rfl rfl rfl 2
        (by simp)
    have hget : o1.get (cobra.Ref.declared 2) = some cmd := by
      simpa [cobra.Registry.command] using hc
    have hne : cmd.Flags.named "address" ≠ [] := by
      rw [(hhigh (by omega)).2]
      exact List.cons_ne_nil _ _
    constructor
    · simp only [broker.init, broker.assemble, broker.GetterCommands, List.cons_append,
        List.nil_append]
      rw [addAddressFlags_skips_two,
        addAddressFlags_redefines _ _ _ 2 o1 cmd (by omega) hget hne]
    · simp only [broker.init, broker.assemble, broker.GetterCommands, List.cons_append,
        List.nil_append]
      rw [addAddressFlags_skips_two,
        addAddressFlags_redefines _ _ _ 2 o1 cmd (by omega) hget hne]
  · intro g1 hg
    obtain ⟨o1, ho, hgeq⟩ := (token_init_ok p g1).mp hg
    subst hgeq
    rw [token_assembled p] at ho
    obtain ⟨h0, h1, _⟩ := rest_facts _ _ _
      (p.lockable_NewGetterCommands p.contractKey ++ p.ownable_NewGetterCommands p.contractKey)
      htd htn
    obtain ⟨cmd0, cmd, _, hc, _, hhigh⟩ :=
      loop_positions _ _ _ _ _ o1 ho h0 h1 (token.abi p) (token.bin p) rfl rfl rfl rfl 2
        (by simp)
    have hget : o1.get (cobra.Ref.declared 2) = some cmd := by
      simpa [cobra.Registry.command] using hc
    have hne : cmd.Flags.named "address" ≠ [] := by
      rw [(hhigh (by omega)).2]
      exact List.cons_ne_nil _ _
    constructor
    · simp only [token.init, token.assemble, token.GetterCommands, List.cons_append,
        List.nil_append]
      rw [addAddressFlags_skips_two,
        addAddressFlags_redefines _ _ _ 2 o1 cmd (by omega) hget hne]
    · simp only [token.init, token.assemble, token.GetterCommands, List.cons_append,
        List.nil_append]
      rw [addAddressFlags_skips_two,
        addAddressFlags_redefines _ _ _ 2 o1 cmd (by omega) hget hne]

/-- C8 (as stated, refuted): at the example package the first run of `init` returns a
registry, for the broker and for the token; a second run on the same inputs, the same
declared commands and the same module outputs, finds the objects as the first run left them
and yields no command list: it panics on redefining the 'address' flag, whether it starts
from the literal slice again or from the slice the first run left. -/
theorem C8_second_run_yields_no_list :
    (∃ g1, broker.init stubPackage (broker.GetterCommands stubPackage) = Except.ok g1 ∧
      broker.init stubPackage
        (cobra.Registry.mk (broker.GetterCommands stubPackage).GetterCommands g1.objects) =
          Except.error "flag redefined: address" ∧
      broker.init stubPackage g1 = Except.error "flag redefined: address") ∧
    (∃ g1, token.init stubPackage (token.GetterCommands stubPackage) = Except.ok g1 ∧
      token.init stubPackage
        (cobra.Registry.mk (token.GetterCommands stubPackage).GetterCommands g1.objects) =
          Except.error "flag redefined: address" ∧
      token.init stubPackage g1 = Except.error "flag redefined: address") := by
  obtain ⟨gb, hgb⟩ : ∃ g, broker.init stubPackage (broker.GetterCommands stubPackage)
      = Except.ok g := ⟨_, rfl⟩
  obtain ⟨gt, hgt⟩ : ∃ g, token.init stubPackage (token.GetterCommands stubPackage)
      = Except.ok g := ⟨_, rfl⟩
  exact ⟨⟨gb, hgb, (init_second_run_panics stubPackage stubPackage).1 gb hgb⟩,
    ⟨gt, hgt, (init_second_run_panics stubPackage stubPackage).2 gt hgt⟩⟩

/-- C8 (amended): for each contract, a run of the assembly of `init` that returns yields a
command list whose names are fixed by the inputs: the names of the declared commands, then
those of the module outputs in the order of the appends.  So two runs on separately built
inputs whose module outputs agree in their names (the same inputs built afresh among them)
yield lists of the same length with the same names in the same order.  Over the command
objects of a first run the assembly cannot be repeated: a second run panics on redefining
the 'address' flag at the declared command at position 2, whatever the modules return to it
(`r` stands for the package as the second run sees it). -/
theorem C8_runs_on_fresh_inputs_agree (p q r : Package)
    (ho : (p.ownable_NewGetterCommands p.contractKey).map
        (fun k => (p.handed k).map cobra.Command.Name) =
      (q.ownable_NewGetterCommands q.contractKey).map
        (fun k => (q.handed k).map cobra.Command.Name))
    (hl : (p.lockable_NewGetterCommands p.contractKey).map
        (fun k => (p.handed k).map cobra.Command.Name) =
      (q.lockable_NewGetterCommands q.contractKey).map
        (fun k => (q.handed k).map cobra.Command.Name)) :
    (∀ g1 g2, broker.init p (broker.GetterCommands p) = Except.ok g1 →
      broker.init q (broker.GetterCommands q) = Except.ok g2 →
      g1.GetterCommands.length = g2.GetterCommands.length ∧ g1.names = g2.names ∧
      g1.names = [some "abi", some "bin", some "storage"] ++
        (p.ownable_NewGetterCommands p.contractKey).map
          (fun k => (p.handed k).map cobra.Command.Name) ++
        (p.lockable_NewGetterCommands p.contractKey).map
          (fun k => (p.handed k).map cobra.Command.Name)) ∧
    (∀ g1 g2, token.init p (token.GetterCommands p) = Except.ok g1 →
      token.init q (token.GetterCommands q) = Except.ok g2 →
      g1.GetterCommands.length = g2.GetterCommands.length ∧ g1.names = g2.names ∧
      g1.names = (token.GetterCommands p).names ++
        (p.lockable_NewGetterCommands p.contractKey).map
          (fun k => (p.handed k).map cobra.Command.Name) ++
        (p.ownable_NewGetterCommands p.contractKey).map
          (fun k => (p.handed k).map cobra.Command.Name)) ∧
    (∀ g1, broker.init p (broker.GetterCommands p) = Except.ok g1 →
      broker.init r (cobra.Registry.mk (broker.GetterCommands p).GetterCommands g1.objects) =
        Except.error "flag redefined: address" ∧
      broker.init r g1 = Except.error "flag redefined: address") ∧
    (∀ g1, token.init p (token.GetterCommands p) = Except.ok g1 →
      token.init r (cobra.Registry.mk (token.GetterCommands p).GetterCommands g1.objects) =
        Except.error "flag redefined: address" ∧
      token.init r g1 = Except.error "flag redefined: address") := by
  refine ⟨?_, ?_, (init_second_run_panics p r).1, (init_second_run_panics p r).2⟩
  · intro g1 g2 h1 h2
    have n1 := ((init_keeps_names p).1 g1 h1).trans (assembled_names p).1
    have n2 := ((init_keeps_names q).1 g2 h2).trans (assembled_names q).1
    have hn : g1.names = g2.names := by rw [n1, n2, ho, hl]
    refine ⟨?_, hn, n1⟩
    rw [← names_length g1, ← names_length g2, hn]
  · intro g1 g2 h1 h2
    have n1 := ((init_keeps_names p).2 g1 h1).trans (assembled_names p).2
    have n2 := ((init_keeps_names q).2 g2 h2).trans (assembled_names q).2
    have hn : g1.names = g2.names := by rw [n1, n2, ho, hl]
    refine ⟨?_, hn, n1⟩
    rw [← names_length g1, ← names_length g2, hn]

/-- C8 (amended), at the example package and the same package built afresh, with new
objects: both runs return, for the broker and for the token, the two registries hold
different references, and they agree in length and names; the broker's names are abi, bin,
storage, owner, isLocked, isLocker. -/
theorem C8_runs_on_fresh_inputs_agree_witness :
    (∃ g1 g2,
      broker.init stubPackage (broker.GetterCommands stubPackage) = Except.ok g1 ∧
      broker.init rebuiltPackage (broker.GetterCommands rebuiltPackage) = Except.ok g2 ∧
      g1.GetterCommands ≠ g2.GetterCommands ∧
      g1.GetterCommands.length = g2.GetterCommands.length ∧ g1.names = g2.names ∧
      g1.names = [some "abi", some "bin", some "storage", some "owner", some "isLocked",
        some "isLocker"]) ∧
    (∃ g1 g2,
      token.init stubPackage (token.GetterCommands stubPackage) = Except.ok g1 ∧
      token.init rebuiltPackage (token.GetterCommands rebuiltPackage) = Except.ok g2 ∧
      g1.GetterCommands ≠ g2.GetterCommands ∧
      g1.GetterCommands.length = g2.GetterCommands.length ∧ g1.names = g2.names) := by
  obtain ⟨gb1, hgb1⟩ : ∃ g, broker.init stubPackage (broker.GetterCommands stubPackage)
      = Except.ok g := ⟨_, rfl⟩
  obtain ⟨gb2, hgb2⟩ : ∃ g, broker.init rebuiltPackage (broker.GetterCommands rebuiltPackage)
      = Except.ok g := ⟨_, rfl⟩
  obtain ⟨gt1, hgt1⟩ : ∃ g, token.init stubPackage (token.GetterCommands stubPackage)
      = Except.ok g := ⟨_, rfl⟩
  obtain ⟨gt2, hgt2⟩ : ∃ g, token.init rebuiltPackage (token.GetterCommands rebuiltPackage)
      = Except.ok g := ⟨_, rfl⟩
  obtain ⟨hb, ht, _, _⟩ :=
    C8_runs_on_fresh_inputs_agree stubPackage rebuiltPackage stubPackage rfl rfl
  obtain ⟨hbl, hbn, hbnames⟩ := hb gb1 gb2 hgb1 hgb2
  obtain ⟨htl, htn, _⟩ := ht gt1 gt2 hgt1 hgt2
  have eb1 : gb1.GetterCommands =
      (broker.assemble stubPackage (broker.GetterCommands stubPackage)).GetterCommands := by
    obtain ⟨_, _, e⟩ := (broker_init_ok stubPackage gb1).mp hgb1
    rw [e]
  have eb2 : gb2.GetterCommands =
      (broker.assemble rebuiltPackage (broker.GetterCommands rebuiltPackage)).GetterCommands := by
    obtain ⟨_, _, e⟩ := (broker_init_ok rebuiltPackage gb2).mp hgb2
    rw [e]
  have et1 : gt1.GetterCommands =
      (token.assemble stubPackage (token.GetterCommands stubPackage)).GetterCommands := by
    obtain ⟨_, _, e⟩ := (token_init_ok stubPackage gt1).mp hgt1
    rw [e]
  have et2 : gt2.GetterCommands =
      (token.assemble rebuiltPackage (token.GetterCommands rebuiltPackage)).GetterCommands := by
    obtain ⟨_, _, e⟩ := (token_init_ok rebuiltPackage gt2).mp hgt2
    rw [e]
  refine ⟨⟨gb1, gb2, hgb1, hgb2, ?_, hbl, hbn, hbnames.trans (by decide)⟩,
    ⟨gt1, gt2, hgt1, hgt2, ?_, htl, htn⟩⟩
  · rw [eb1, eb2]
    decide
  · rw [et1, et2]
    decide
/-- C10 (the code at the failing input): `balanceOf` declares `cobra.MaximumNArgs(1)`, which
lets the empty argument list through, and its body reads `args[0]`: index 0 is not below the
length 0 and the body ends in the out-of-range panic.  The five other getters that declare
`cobra.MaximumNArgs(1)` panic on the empty list in the same way, whereas `allowance`, which
declares `cobra.ExactArgs(2)`, refuses it. -/
theorem C10_MaximumNArgs_admits_the_empty_list :
    token.balanceOf.Args.arity = cobra.Arity.MaximumNArgs 1 ∧
    cobra.Arity.accepts token.balanceOf.Args.arity [] = true ∧
    ¬ (0 < ([] : List String).length) ∧
    token.balanceOf.Run [] = none ∧
    token.cancellations.Run [] = none ∧ token.getSuperseded.Run [] = none ∧
    token.holderAt.Run [] = none ∧ token.isHolder.Run [] = none ∧
    token.isSuperseded.Run [] = none ∧
    token.allowance.Args.arity = cobra.Arity.ExactArgs 2 ∧
    cobra.Arity.accepts token.allowance.Args.arity [] = false := by
  decide

/-- What does hold of the reads of `args` in the token getters: `allowance` declares
`cobra.ExactArgs(2)`, and for every argument list
that check lets through both indices its body reads, 0 and 1, are below `len(args)` and the
body runs without a panic.  `balanceOf`, `cancellations`, `getSuperseded`, `holderAt`,
`isHolder` and `isSuperseded` declare `cobra.MaximumNArgs(1)`, and for every non-empty
argument list that check lets through, the one index the body reads, 0, is below `len(args)`
and the body runs without a panic; the body of each of them runs without a panic exactly when
`args` is non-empty. -/
theorem token_getters_read_within_present_arguments (args : List String) :
    (token.allowance.Args.arity = cobra.Arity.ExactArgs 2 ∧
      (cobra.Arity.accepts token.allowance.Args.arity args = true →
        0 < args.length ∧ 1 < args.length ∧ (token.allowance.Run args).isSome = true)) ∧
    (∀ cmd ∈ [token.balanceOf, token.cancellations, token.getSuperseded, token.holderAt,
        token.isHolder, token.isSuperseded],
      cmd.Args.arity = cobra.Arity.MaximumNArgs 1 ∧
      (cobra.Arity.accepts cmd.Args.arity args = true → args ≠ [] →
        0 < args.length ∧ args.length = 1 ∧ (cmd.Run args).isSome = true) ∧
      ((cmd.Run args).isSome = true ↔ 0 < args.length)) := by
  constructor
  · refine ⟨rfl, ?_⟩
    intro h
    have h2 : args.length = 2 := by
      simpa [token.allowance, cobra.PositionalArgs.arity, cobra.Arity.accepts] using h
    obtain ⟨a, b, hab⟩ := List.length_eq_two.mp h2
    subst hab
    exact ⟨by simp, by simp, rfl⟩
  · intro cmd hc
    simp only [List.mem_cons, List.mem_singleton, List.not_mem_nil, or_false] at hc
    rcases hc with h | h | h | h | h | h <;> subst h <;>
    · refine ⟨rfl, ?_, ?_⟩
      · intro hacc hne
        have h1 : args.length ≤ 1 := by
          simpa [token.balanceOf, token.cancellations, token.getSuperseded, token.holderAt,
            token.isHolder, token.isSuperseded, cobra.PositionalArgs.arity,
            cobra.Arity.accepts] using hacc
        have h0 : args.length ≠ 0 := fun h => hne (List.length_eq_zero.mp h)
        obtain ⟨a, ha⟩ := List.length_eq_one.mp (show args.length = 1 by omega)
        subst ha
        exact ⟨by simp, rfl, rfl⟩
      · cases args with
        | nil => decide
        | cons a rest => simp [token.balanceOf, token.cancellations, token.getSuperseded,
            token.holderAt, token.isHolder, token.isSuperseded]

/-- The reads of `args` at concrete argument lists: two addresses for `allowance`, one address
for `balanceOf`, one index for `holderAt`. -/
theorem token_getters_read_within_present_arguments_example :
    (cobra.Arity.accepts token.allowance.Args.arity ["0xf01f", "0xa01a"] = true ∧
      token.allowance.Run ["0xf01f", "0xa01a"] =
        some [cobra.Effect.CheckGetter "Allowance"
          [cobra.Value.HexToAddress "0xf01f", cobra.Value.HexToAddress "0xa01a"]] ∧
      (0 < ["0xf01f", "0xa01a"].length ∧ 1 < ["0xf01f", "0xa01a"].length ∧
        (token.allowance.Run ["0xf01f", "0xa01a"]).isSome = true)) ∧
    (cobra.Arity.accepts token.balanceOf.Args.arity ["0xf01f"] = true ∧
      ["0xf01f"] ≠ [] ∧
      (0 < ["0xf01f"].length ∧ ["0xf01f"].length = 1 ∧
        (token.balanceOf.Run ["0xf01f"]).isSome = true)) ∧
    token.holderAt.Run ["5"] =
      some [cobra.Effect.CheckAddressGetter "HolderAt" [cobra.Value.BigIntBase10 "5"]] :=
  ⟨⟨by decide, by decide,
      (token_getters_read_within_present_arguments ["0xf01f", "0xa01a"]).1.2 (by decide)⟩,
   ⟨by decide, by decide,
      ((token_getters_read_within_present_arguments ["0xf01f"]).2 token.balanceOf
        (List.mem_cons_self _ _)).2.1 (by decide) (by decide)⟩,
   by decide⟩
